import Mathlib

/-!
Verification of the txt2bb question-file converter (txt2bb.py).

The development shallowly embeds the parts of txt2bb.py that the claims
touch: the pre-flight checker (`parse_checker`), the normalizer and line
parser (`txt2py`), the variant-expansion engine (`extract_variants`,
`produce_variant_questions`), the per-type question classes (construction
validation plus the two projections `bb` and `latex`), and the two
renderers (`q2bb1`, `q2latex1`) together with the file-writing loop of
`main`.

Strings are embedded as `List Char`.  Python library behaviour (the `re`
module patterns actually used, `str.replace`, `str.split`, `str.strip`,
`repr` of strings/lists/tuples) is modelled by explicit scanners, each
documented at its definition with the pattern it implements.  All
definitions are structurally recursive so that concrete runs reduce in the
kernel.
-/

/-- Strings of the embedded program. -/
abbrev Str := List Char

/-- Left brace character. -/
def lb : Char := Char.ofNat 123

/-- Right brace character. -/
def rb : Char := Char.ofNat 125

/-- Backslash character. -/
def bsl : Char := '\\'

/-- Python whitespace as used by `str.strip()` and the complement of regex
`\S` (space, tab, newline, carriage return, vertical tab, form feed). -/
def isWS (c : Char) : Bool :=
  c = ' ' ∨ c = '\t' ∨ c = '\n' ∨ c = '\r' ∨ c = Char.ofNat 11 ∨ c = Char.ofNat 12

/-- ASCII letter, the character class `[a-zA-Z]` of the source's regexes. -/
def isAlpha (c : Char) : Bool :=
  ('a' ≤ c ∧ c ≤ 'z') ∨ ('A' ≤ c ∧ c ≤ 'Z')

/-- ASCII digit. -/
def isDigit (c : Char) : Bool := '0' ≤ c ∧ c ≤ '9'

/-- Regex word character `\w` (ASCII portion: letter, digit or underscore). -/
def isWord (c : Char) : Bool := isAlpha c ∨ isDigit c ∨ c = '_'

/-- `startsWithS pat s` : `pat` is a prefix of `s` (Python `str.startswith`). -/
def startsWithS : Str → Str → Bool
  | [], _ => true
  | _ :: _, [] => false
  | p :: ps, c :: cs => p = c ∧ startsWithS ps cs

/-- `containsSub pat s` : `pat` occurs as a contiguous substring of `s`
(Python `pat in s` for strings). -/
def containsSub (pat : Str) : Str → Bool
  | [] => startsWithS pat []
  | c :: cs => startsWithS pat (c :: cs) ∨ containsSub pat cs

/-- `containsCh c s` : character membership (Python `c in s`). -/
def containsCh (c : Char) : Str → Bool
  | [] => false
  | d :: ds => d = c ∨ containsCh c ds

/-- Python `str.strip()` : remove leading and trailing whitespace. -/
def trimWS (s : Str) : Str :=
  ((s.dropWhile isWS).reverse.dropWhile isWS).reverse

/-- Python `str.strip(':')` : remove leading and trailing colons. -/
def trimColon (s : Str) : Str :=
  ((s.dropWhile (· = ':')).reverse.dropWhile (· = ':')).reverse

/-- First index of `x` in `l` (Python `list.index`); equals `l.length` when
`x` is absent (callers below only use it under a membership guard, where
Python would otherwise raise). -/
def firstIdx [DecidableEq α] (x : α) : List α → Nat
  | [] => 0
  | a :: r => if a = x then 0 else 1 + firstIdx x r

/-- Worker for `replaceAll`: `skip > 0` means the scanner is inside an
already-replaced occurrence and must pass over `skip` more characters. -/
def replaceAllGo (old new : Str) : Str → Nat → Str
  | [], _ => []
  | _ :: cs, Nat.succ n => replaceAllGo old new cs n
  | c :: cs, 0 =>
    if old ≠ [] ∧ startsWithS old (c :: cs) then
      new ++ replaceAllGo old new cs (old.length - 1)
    else
      c :: replaceAllGo old new cs 0

/-- Python `str.replace(old, new)` : replace every non-overlapping
occurrence of `old`, scanning left to right.  Every pattern passed to it in
the source is non-empty (for `old = []` this returns `s` unchanged). -/
def replaceAll (old new s : Str) : Str := replaceAllGo old new s 0

/-- Worker for `countSub` (same skipping discipline as `replaceAllGo`). -/
def countSubGo (pat : Str) : Str → Nat → Nat
  | [], _ => 0
  | _ :: cs, Nat.succ n => countSubGo pat cs n
  | c :: cs, 0 =>
    if pat ≠ [] ∧ startsWithS pat (c :: cs) then
      1 + countSubGo pat cs (pat.length - 1)
    else
      countSubGo pat cs 0

/-- Number of non-overlapping occurrences of a non-empty literal pattern,
scanning left to right (`len(re.findall(literal, s))` in the source). -/
def countSub (pat s : Str) : Nat := countSubGo pat s 0

/-- Decimal representation of a natural number (Python `str(num)` for the
non-negative integers appearing in the source). -/
def natToStr (n : Nat) : Str := (Nat.repr n).toList

/-! ### Placeholder scanning (`re.findall(r'%{(.*?)}%', text)`) -/

/-- One-pass scanner for the non-greedy placeholder pattern `%{(.*?)}%`.
With `st = none` it searches for the opening `%{`; with `st = some acc` it
is inside a placeholder collecting the (reversed) inner text until the
earliest `}%`.  If the end of the string is reached while inside, there is
no closing `}%` anywhere to the right, so no further match exists and the
scan ends (exactly the regex behaviour). -/
def phScan : Str → Option Str → List Str
  | [], _ => []
  | [_], _ => []
  | a :: b :: cs, none =>
    if a = '%' ∧ b = lb then phScan cs (some [])
    else phScan (b :: cs) none
  | a :: b :: cs, some acc =>
    if a = rb ∧ b = '%' then acc.reverse :: phScan cs none
    else phScan (b :: cs) (some (a :: acc))

/-- Inner texts of all placeholder matches, left to right
(`re.findall(r'%{(.*?)}%', s)`). -/
def findPH (s : Str) : List Str := phScan s none

/-- The full text of a placeholder match with inner text `inner`
(what `re.findall('%{.*?}%', s)` returns for the same match). -/
def phFull (inner : Str) : Str := '%' :: lb :: inner ++ [rb, '%']

/-! ### Variant-list splitting (`re.split(r' *(?<!\\), *', item)`)

A comma is a separator unless the character directly before it in the
original string is a backslash (a comma at position 0 is a separator: the
lookbehind trivially holds there). A separator absorbs the maximal space
runs on both sides. -/

/-- Worker: `prev` is the original character before the current position
(`' '` initially, which is not a backslash, matching the empty lookbehind),
`acc` the reversed current piece, `skip` whether we are consuming the
spaces directly after a separator comma. -/
def svGo : Str → Char → Str → Bool → List Str
  | [], _, acc, _ => [acc.reverse]
  | c :: cs, prev, acc, skip =>
    if skip ∧ c = ' ' then svGo cs ' ' acc true
    else if c = ',' ∧ prev ≠ bsl then
      (acc.dropWhile (· = ' ')).reverse :: svGo cs ' ' [] true
    else svGo cs c (c :: acc) false

/-- `re.split(r' *(?<!\\), *', s)`. -/
def splitVars (s : Str) : List Str := svGo s ' ' [] false

/-! ### Image substitutions (`re.sub('@{(.+?)}@', repl, s)`)

Non-greedy with a non-empty inner text (`.+?`): at each `@{`, the match
ends at the earliest following `}@` that leaves at least one inner
character.  If no such `}@` exists the scan is over (no later match can
close either). -/

/-- One-pass image-reference rewriter, parameterised by the function that
renders the replacement from the captured path. -/
def imgScan (repl : Str → Str) : Str → Option Str → Str
  | [], none => []
  | [c], none => [c]
  | a :: b :: cs, none =>
    if a = '@' ∧ b = lb then imgScan repl cs (some [])
    else a :: imgScan repl (b :: cs) none
  | [], some acc => '@' :: lb :: acc.reverse
  | [c], some acc => '@' :: lb :: acc.reverse ++ [c]
  | a :: b :: cs, some acc =>
    if a = rb ∧ b = '@' ∧ acc ≠ [] then repl acc.reverse ++ imgScan repl cs none
    else imgScan repl (b :: cs) (some (a :: acc))

/-- Import-format image marker: `re.sub('@{(.+?)}@', r'+++FIGURE "\1" HERE+++', s)`
(q2bb1). -/
def imageSub (s : Str) : Str :=
  imgScan (fun p => "+++FIGURE \"".toList ++ p ++ "\" HERE+++".toList) s none

/-- Document-format image command:
`re.sub('@{(.+?)}@', r'\\includegraphics[width=0.7\\textwidth]{\1}', s)`
(q2latex1; the replacement template's `\\` is a single backslash). -/
def latexImageSub (s : Str) : Str :=
  imgScan (fun p => "\\includegraphics[width=0.7\\textwidth]".toList ++ lb :: p ++ [rb]) s none

/-! ### Percent escaping (`re.sub(r'(?<!\\)%', '\\%', s)`) -/

/-- Prefix every `%` whose original predecessor is not a backslash with a
backslash; `prev` tracks the predecessor in the original string. -/
def pctEscGo : Str → Char → Str
  | [], _ => []
  | c :: cs, prev =>
    if c = '%' ∧ prev ≠ bsl then bsl :: '%' :: pctEscGo cs '%'
    else c :: pctEscGo cs c

/-- `re.sub(r'(?<!\\)%', '\\%', s)` (a `%` at position 0 is escaped). -/
def pctEsc (s : Str) : Str := pctEscGo s ' '

/-! ### The three normalisation rewrites of `txt2py` -/

/-- `re.sub(' *\n> *', '<br>', text)`: a newline followed by `>` is merged
into the previous line as a `<br>` token, absorbing the maximal space runs
on both sides.  `pend` counts spaces seen but not yet flushed (potential
leading spaces of a match); `skip` means we are inside the trailing space
run of a completed match. -/
def brJoinGo : Str → Nat → Bool → Str
  | [], pend, _ => List.replicate pend ' '
  | '\n' :: '>' :: cs2, _, _ => '<' :: 'b' :: 'r' :: '>' :: brJoinGo cs2 0 true
  | '\n' :: cs, pend, _ => List.replicate pend ' ' ++ '\n' :: brJoinGo cs 0 false
  | ' ' :: cs, pend, skip =>
    if skip then brJoinGo cs 0 true else brJoinGo cs (pend + 1) false
  | c :: cs, pend, _ => List.replicate pend ' ' ++ c :: brJoinGo cs 0 false

/-- First rewrite of `txt2py`. -/
def brJoin (s : Str) : Str := brJoinGo s 0 false

/-- `re.sub(r' *\\\\\n *', r'\\\\', text)`: a double backslash at the end
of a line is flattened (the newline and surrounding spaces are removed,
the double backslash kept). -/
def dblBslGo : Str → Nat → Bool → Str
  | [], pend, _ => List.replicate pend ' '
  | '\\' :: '\\' :: '\n' :: cs3, _, _ => bsl :: bsl :: dblBslGo cs3 0 true
  | ' ' :: cs, pend, skip =>
    if skip then dblBslGo cs 0 true else dblBslGo cs (pend + 1) false
  | c :: cs, pend, _ => List.replicate pend ' ' ++ c :: dblBslGo cs 0 false

/-- Second rewrite of `txt2py`. -/
def dblBsl (s : Str) : Str := dblBslGo s 0 false

/-- `re.sub(r'\\\n', '', text)`: third rewrite, a backslash directly before
a newline deletes both. -/
def bslNl : Str → Str
  | [] => []
  | '\\' :: '\n' :: cs => bslNl cs
  | c :: cs => c :: bslNl cs

/-- The full normalisation applied by `txt2py` after `parse_checker`,
in source order. -/
def normalizeText (s : Str) : Str := bslNl (dblBsl (brJoin s))

/-- Python `str.splitlines()` restricted to `\n` separators (the only line
terminator the embedded inputs contain): pieces between newlines, with no
empty piece after a trailing newline, and `[]` for the empty string. -/
def splitLinesGo : Str → Str → List Str
  | [], acc => [acc.reverse]
  | c :: cs, acc =>
    if c = '\n' then acc.reverse :: splitLinesGo cs []
    else splitLinesGo cs (c :: acc)

/-- `text.splitlines()`. -/
def splitLinesPy (s : Str) : List Str :=
  if s = [] then []
  else
    let ps := splitLinesGo s []
    if ps.getLast? = some [] then ps.dropLast else ps

/-! ### The pre-flight checker (`parse_checker`)

The checker scans the raw text against a fixed rule list, in source order,
and raises a `SyntaxError` on the first rule whose pattern occurs.  The
diagnostic message and the 1-based line number carried by the exception are
not modelled; only which rule fired is. -/

/-- The rules of `parse_checker`, in the order the source checks them. -/
inductive PCRule
  | ltNoSpace     -- `'<\S'` : a `<` needs a space after it
  | gtNoSpace     -- `'.\S>'` : a `>` needs a space before it
  | tabUsed       -- `'\t'` : tab used, use spaces
  | textCmd       -- `r'\\text{'` : use `\mathrm{}` instead
  | defCmd        -- `r'\\def{'` : not supported in MathJax
  | mathrmSpace   -- `r'\\mathrm{[^ }]* '` : space inside `\mathrm{}`
  | eqSpace       -- space inside a `$...$` / `$$...$$` fence
  deriving DecidableEq, Repr

/-- `re.search('<\S', text)` as a Boolean: some `<` directly followed by a
non-whitespace character. -/
def chkLt : Str → Bool
  | [] => false
  | [_] => false
  | c :: d :: cs => (c = '<' ∧ ¬ isWS d) ∨ chkLt (d :: cs)

/-- `re.search('.\S>', text)`: some `>` preceded by a non-whitespace
character which itself has a predecessor other than a newline
(`.` does not match `\n`). -/
def chkGt : Str → Bool
  | c :: d :: e :: cs => (c ≠ '\n' ∧ ¬ isWS d ∧ e = '>') ∨ chkGt (d :: e :: cs)
  | _ => false

/-- `re.search(r'\\mathrm{[^ }]* ', text)`: after a literal `\mathrm{`, the
first space or closing brace reached is a space. -/
def chkMathrm : Str → Bool
  | [] => false
  | c :: cs =>
    (startsWithS "\\mathrm\x7b".toList (c :: cs) ∧
      (((c :: cs).drop 8).dropWhile (fun x => x ≠ ' ' ∧ x ≠ rb)).head? = some ' ')
    ∨ chkMathrm cs

/-- State machine deciding whether some equation fence matched by
`re.findall(r'\$+[^\$]*\$+', text)` contains a space.  States: `0` outside,
`1` inside an opening dollar run, `2` inside a fence body without a space
so far, `3` inside a fence body with a space (a closing `$` now completes a
space-containing fence), `4` inside the closing dollar run of a completed
spaceless fence. -/
def eqSpaceGo : Str → Nat → Bool
  | [], _ => false
  | c :: cs, st =>
    if st = 0 then (if c = '$' then eqSpaceGo cs 1 else eqSpaceGo cs 0)
    else if st = 1 then
      (if c = '$' then eqSpaceGo cs 1
       else if c = ' ' then eqSpaceGo cs 3 else eqSpaceGo cs 2)
    else if st = 2 then
      (if c = '$' then eqSpaceGo cs 4
       else if c = ' ' then eqSpaceGo cs 3 else eqSpaceGo cs 2)
    else if st = 3 then (if c = '$' then true else eqSpaceGo cs 3)
    else (if c = '$' then eqSpaceGo cs 4 else eqSpaceGo cs 0)

/-- The `eqs = re.findall(r'\$+[^\$]*\$+', text); ... ' ' in eq` check. -/
def chkEqSpace (s : Str) : Bool := eqSpaceGo s 0

/-- `parse_checker(file_name, text)`: first violated rule, if any. -/
def parse_checker (text : Str) : Option PCRule :=
  if chkLt text then some .ltNoSpace
  else if chkGt text then some .gtNoSpace
  else if containsCh '\t' text then some .tabUsed
  else if containsSub "\\text\x7b".toList text then some .textCmd
  else if containsSub "\\def\x7b".toList text then some .defCmd
  else if chkMathrm text then some .mathrmSpace
  else if chkEqSpace text then some .eqSpace
  else none

/-! ### Python `repr` of strings, pairs and lists

`MC.__init__`, `TF.__init__`, `MAT.__init__`, `NUM` and the variant check
of `main` all pattern-match on `str(...)` of answer data, so the CPython
`repr` of strings is modelled: quote selection (single quotes unless the
string contains a single quote and no double quote), escaping of the
backslash, of the chosen quote, of `\n`, `\r`, `\t`, and `\xHH` escapes for
the remaining control characters.  (Printable non-ASCII is kept verbatim;
all strings in this development are ASCII.) -/

/-- Lower-case hexadecimal digit. -/
def hexDigit (n : Nat) : Char :=
  if n < 10 then Char.ofNat ('0'.toNat + n) else Char.ofNat ('a'.toNat + n - 10)

/-- Escape one character of a `repr`ed string, `q` being the chosen quote. -/
def pyEscCh (q c : Char) : Str :=
  if c = bsl then [bsl, bsl]
  else if c = q then [bsl, q]
  else if c = '\n' then [bsl, 'n']
  else if c = '\r' then [bsl, 'r']
  else if c = '\t' then [bsl, 't']
  else if c.toNat < 32 ∨ c.toNat = 127 then
    [bsl, 'x', hexDigit (c.toNat / 16), hexDigit (c.toNat % 16)]
  else [c]

/-- CPython `repr` of a string. -/
def pyReprStr (s : Str) : Str :=
  let q : Char := if containsCh '\'' s ∧ ¬ containsCh '"' s then '"' else '\''
  q :: (s.flatMap (pyEscCh q)) ++ [q]

/-- `", ".join pieces`. -/
def commaJoin : List Str → Str
  | [] => []
  | [x] => x
  | x :: xs => x ++ ',' :: ' ' :: commaJoin xs

/-- CPython `repr` of a list of strings (`str([l1, l2, ...])`). -/
def pyReprStrList (ls : List Str) : Str :=
  '[' :: commaJoin (ls.map pyReprStr) ++ [']']

/-- CPython `repr` of a pair of strings. -/
def pyReprPair (p : Str × Str) : Str :=
  '(' :: pyReprStr p.1 ++ ',' :: ' ' :: pyReprStr p.2 ++ [')']

/-- CPython `repr` of the answers list (`str(self.answers)`), a list of
(label, value) pairs. -/
def pyReprAnswers (ans : List (Str × Str)) : Str :=
  '[' :: commaJoin (ans.map pyReprPair) ++ [']']

/-! ### The `[^in]correct` counter of `MC.__init__`

`re.findall("[^in]correct", str([label for label, _ in answers]))` counts
non-overlapping matches of: one character that is neither `i` nor `n`,
followed by the literal `correct`. -/

/-- Worker: `skip > 0` passes over the tail of a completed match. -/
def countMCGo : Str → Nat → Nat
  | [], _ => 0
  | _ :: cs, Nat.succ n => countMCGo cs n
  | c :: cs, 0 =>
    if (c ≠ 'i' ∧ c ≠ 'n') ∧ startsWithS "correct".toList cs then
      1 + countMCGo cs 7
    else countMCGo cs 0

/-- `len(re.findall("[^in]correct", s))`. -/
def countMC (s : Str) : Nat := countMCGo s 0

/-- `re.findall("[a-zA-Z]+", s)[0]` : the first maximal run of letters, or
`none` when `s` contains no letter (where Python raises `IndexError`). -/
def firstAlphaRun (s : Str) : Option Str :=
  let t := s.dropWhile (fun c => ¬ isAlpha c)
  if t = [] then none else some (t.takeWhile isAlpha)

/-! ### Python `float()` / `str(float())` for `NUM`

`NUM.__init__` runs `str(float(value))` on the answer (and tolerance).
`float`/`str` are CPython library routines; they are modelled here for
plain decimal literals (optional sign, digits with an optional fraction
part, optional decimal exponent): the value is parsed exactly and printed
in positional notation with the minimal digit string.  This coincides with
CPython whenever the literal has few significant digits and moderate
magnitude, which covers every value this development evaluates; binary
floating-point rounding and the scientific-notation regimes of `repr` are
not modelled.  No claim depends on the exact printed digits. -/

/-- Split leading decimal digits. -/
def takeDigits (s : Str) : Str × Str := (s.takeWhile isDigit, s.dropWhile isDigit)

/-- Parse an optional sign, returning `true` for negative. -/
def parseSign : Str → Bool × Str
  | '+' :: cs => (false, cs)
  | '-' :: cs => (true, cs)
  | s => (false, s)

/-- Digits of a natural number, most significant first. -/
def natDigits (n : Nat) : Str := (Nat.repr n).toList

/-- Value of a digit string. -/
def digitsVal (s : Str) : Nat := s.foldl (fun a c => 10 * a + (c.toNat - '0'.toNat)) 0

/-- Render `mant × 10^(-frac)` (with `frac ≥ 0`) in Python's positional
float notation: at least one integer digit, a decimal point, and a
fraction part with trailing zeros removed but at least one digit. -/
def posNotation (mant : Nat) (frac : Nat) : Str :=
  let ds := natDigits mant
  let ds := List.replicate (frac + 1 - ds.length) '0' ++ ds
  let ipart := ds.take (ds.length - frac)
  let fpart := ds.drop (ds.length - frac)
  let fpart := (fpart.reverse.dropWhile (· = '0')).reverse
  ipart ++ '.' :: (if fpart = [] then ['0'] else fpart)

/-- Sign prefix and positional rendering. -/
def floatFmt (neg : Bool) (mant frac : Nat) : Str :=
  (if neg then ['-'] else []) ++ posNotation mant frac

/-- Exponent part of a float literal: `r` is the text after `e`/`E`. -/
def pyFloatExp (neg : Bool) (mant fracLen : Nat) (r : Str) : Option Str :=
  let (negE, r1) := parseSign r
  let (ed, r2) := takeDigits r1
  if ed = [] ∨ r2 ≠ [] then none
  else
    let e := digitsVal ed
    if negE then some (floatFmt neg mant (fracLen + e))
    else if fracLen ≤ e then some (floatFmt neg (mant * 10 ^ (e - fracLen)) 0)
    else some (floatFmt neg mant (fracLen - e))

/-- `str(float(s))` for a plain decimal literal, `none` where `float(s)`
raises `ValueError`. -/
def pyFloatStr (s : Str) : Option Str :=
  let t := trimWS s
  let (neg, t1) := parseSign t
  let (ip, t2) := takeDigits t1
  let pr : Str × Str :=
    match t2 with
    | '.' :: r => takeDigits r
    | _ => ([], t2)
  let fp := pr.1
  let t3 := pr.2
  if ip = [] ∧ fp = [] then none
  else
    match t3 with
    | [] => some (floatFmt neg (digitsVal (ip ++ fp)) fp.length)
    | 'e' :: r => pyFloatExp neg (digitsVal (ip ++ fp)) fp.length r
    | 'E' :: r => pyFloatExp neg (digitsVal (ip ++ fp)) fp.length r
    | _ => none

/-! ### Errors

One constructor per distinct Python exception site reachable in the
embedded code.  Messages and line numbers are not modelled, only which
exception is raised. -/

inductive Err
  | syntaxErr : PCRule → Err -- SyntaxError raised by parse_checker
  | nameError       -- UnboundLocalError: key/value line before any question delimiter
  | keyError        -- KeyError: missing 'type'/'prompt' key on a record
  | indexError      -- IndexError: sequence index out of range
  | typeError       -- TypeError: `'(' in typ` with an integer label (latex_item on ORD items)
  | substrNotFound  -- ValueError from str.index: `typ.index(')')` with no ')'
  | unpackError     -- ValueError: `a, b = s.split(':')` with a part count other than 2
  | onlyOneCorrect  -- ValueError "Only 1 correct answer should be provided" (MC)
  | onlyOneAnswer   -- ValueError "Only 1 answer should be provided" (TF)
  | trueFalseOnly   -- ValueError "Valid answers are true or false" (TF)
  | noParMarks      -- ValueError "No partial marks allowed ..." (several types)
  | numAnswers      -- AssertionError "Number of answers must be between 1 and 20" (ORD)
  | matchCounts     -- AssertionError "All options must have matching answers" (MAT)
  | notNumeric      -- ValueError "answer and tolerance must be numbers" (NUM)
  | spacesInVar     -- ValueError "no space are allowed in variable names" (JUMBLED_SENTENCE)
  | missingVars     -- ValueError "missing variables from prompt" (JUMBLED_SENTENCE)
  | bracketCount    -- ValueError "incorrect number of brackets in prompt" (JUMBLED_SENTENCE)
  | varNoAnswers    -- ValueError "Variable is not given answers" (FIB_PLUS)
  | variantsLength  -- ValueError "All variants must be the same length" (extract_variants)
  | unrecognisedKey -- ValueError "Unrecognised key ..." (produce_variant_questions)
  | unknownType     -- ValueError "Unrecognised question type" (q2bb1 / q2latex1)
  deriving DecidableEq, Repr

/-! ### The data model

A `Question` is the parser's record: the Python dict with the always
present `answers` list and the optional `type` / `prompt` keys. -/

structure Question where
  type : Option Str
  prompt : Option Str
  answers : List (Str × Str)
  deriving DecidableEq, Repr

/-- Dict access `question[key]` for the two scalar keys. -/
def getKey (o : Option Str) : Except Err Str :=
  match o with
  | none => .error .keyError
  | some v => .ok v

/-- State set up by `Question.__init__`: `self.type`, `self.prompt`,
`self.answers`. -/
structure HQ where
  t : Str
  p : Str
  answers : List (Str × Str)
  deriving DecidableEq, Repr

/-- `Question.__init__` (KeyError when `type` or `prompt` is missing;
`type` is read first, as in the source). -/
def questionInit (q : Question) : Except Err HQ := do
  let t ← getKey q.type
  let p ← getKey q.prompt
  pure ⟨t, p, q.answers⟩

/-- Does some answer label contain `(`
(`any('(' in item[0] for item in self.answers)`). -/
def anyParen (ans : List (Str × Str)) : Bool :=
  ans.any (fun a => containsCh '(' a.1)

/-- Labels used by latex projections: strings for most types, the integers
of `enumerate` for ORD. -/
inductive LatexLab
  | s : Str → LatexLab
  | n : Nat → LatexLab
  deriving DecidableEq, Repr

/-- A document-format projection item. -/
abbrev LItem := LatexLab × Str

/-- `enumerate(l, n)`. -/
def enumFrom (n : Nat) : List α → List (Nat × α)
  | [] => []
  | a :: r => (n, a) :: enumFrom (n + 1) r

/-! ### MC (single-correct choice) and MA (multi-correct choice) -/

/-- `MC.__init__`: after `Question.__init__`, count regex matches of
`[^in]correct` in `str([label for label, _ in answers])` and require
exactly one. -/
def MC_init (q : Question) : Except Err HQ := do
  let hq ← questionInit q
  if countMC (pyReprStrList (hq.answers.map (·.1))) ≠ 1 then .error .onlyOneCorrect
  else pure hq

/-- The interleaved (value, first-letter-run-of-label) items of `MC.bb` /
`MA.bb`; `re.findall("[a-zA-Z]+", label)[0]` raises IndexError on a label
without letters. -/
def mcItems : List (Str × Str) → Except Err (List Str)
  | [] => .ok []
  | (lab, ans) :: rest =>
    match firstAlphaRun lab with
    | none => .error .indexError
    | some a => do
      let r ← mcItems rest
      pure (ans :: a :: r)

/-- `MC.bb` (also `MA.bb`). -/
def MC_bb (hq : HQ) : Except Err (List Str) := do
  let its ← mcItems hq.answers
  pure (hq.t :: hq.p :: its)

/-- `MC.latex` (also `MA.latex`): the (label, value) pairs verbatim. -/
def MC_latex (hq : HQ) : Except Err (Option (List LItem)) :=
  .ok (some (hq.answers.map (fun a => (LatexLab.s a.1, a.2))))

/-- `MA.__init__` is just `Question.__init__` (no count restriction). -/
def MA_init (q : Question) : Except Err HQ := questionInit q

/-! ### TF (true/false) -/

/-- `TF.__init__`: exactly one occurrence of the literal `'answer'` in
`str(self.answers)`, first value `true` or `false`, no `(` in the first
label. -/
def TF_init (q : Question) : Except Err HQ := do
  let hq ← questionInit q
  if countSub "'answer'".toList (pyReprAnswers hq.answers) ≠ 1 then .error .onlyOneAnswer
  else
    match hq.answers with
    | [] => .error .indexError
    | (l, v) :: _ =>
      if ¬ (v = "true".toList ∨ v = "false".toList) then .error .trueFalseOnly
      else if containsCh '(' l then .error .noParMarks
      else pure hq

/-- `TF.bb`. -/
def TF_bb (hq : HQ) : Except Err (List Str) :=
  match hq.answers with
  | [] => .error .indexError
  | (_, v) :: _ => .ok [hq.t, hq.p, v]

/-- `TF.latex`. -/
def TF_latex (hq : HQ) : Except Err (Option (List LItem)) :=
  match hq.answers with
  | [] => .error .indexError
  | (_, v) :: _ => .ok (some [(LatexLab.s "answer".toList, v)])

/-! ### ESS (essay) and SR (short response, the same class body) -/

/-- `ESS` has no `__init__` of its own. -/
def ESS_init (q : Question) : Except Err HQ := questionInit q

/-- `ESS.bb`: note the source indexes `answers[0]` in the partial-marks
check *before* testing `if self.answers:`, so an empty answers list raises
IndexError and the `[type, prompt]` branch is unreachable. -/
def ESS_bb (hq : HQ) : Except Err (List Str) :=
  match hq.answers with
  | [] => .error .indexError
  | (l, v) :: _ =>
    if containsCh '(' l then .error .noParMarks
    else .ok [hq.t, hq.p, v]

/-- `ESS.latex`: a single example pair, or `None` when there are no
answers. -/
def ESS_latex (hq : HQ) : Except Err (Option (List LItem)) :=
  match hq.answers with
  | [] => .ok none
  | (_, v) :: _ => .ok (some [(LatexLab.s "example".toList, v)])

/-! ### ORD (ordering) -/

/-- `ORD.__init__`. -/
def ORD_init (q : Question) : Except Err HQ := do
  let hq ← questionInit q
  if ¬ (1 ≤ hq.answers.length ∧ hq.answers.length ≤ 20) then .error .numAnswers
  else if anyParen hq.answers then .error .noParMarks
  else pure hq

/-- `ORD.bb`. -/
def ORD_bb (hq : HQ) : Except Err (List Str) :=
  .ok (hq.t :: hq.p :: hq.answers.map (·.2))

/-- `ORD.latex`: `enumerate(answers, 1)` pairs; the labels are integers. -/
def ORD_latex (hq : HQ) : Except Err (Option (List LItem)) :=
  .ok (some ((enumFrom 1 hq.answers).map (fun na => (LatexLab.n na.1, na.2.2))))

/-! ### MAT (matching) -/

/-- `MAT.__init__`: equal numbers of `match_a` and `match_b` substrings in
`str(self.answers)`, and no partial marks. -/
def MAT_init (q : Question) : Except Err HQ := do
  let hq ← questionInit q
  if countSub "match_a".toList (pyReprAnswers hq.answers)
      ≠ countSub "match_b".toList (pyReprAnswers hq.answers) then .error .matchCounts
  else if anyParen hq.answers then .error .noParMarks
  else pure hq

/-- `MAT.bb`. -/
def MAT_bb (hq : HQ) : Except Err (List Str) :=
  .ok (hq.t :: hq.p :: hq.answers.map (·.2))

/-- `MAT.latex`: `zip(range(2, len+2), answers)` with labels
`str(num // 2) + ('a','b')[num % 2]`. -/
def MAT_latex (hq : HQ) : Except Err (Option (List LItem)) :=
  .ok (some ((enumFrom 2 hq.answers).map (fun na =>
    (LatexLab.s (natToStr (na.1 / 2) ++ [if na.1 % 2 = 0 then 'a' else 'b']), na.2.2))))

/-! ### FIL (file upload) and OP (opinion scale, the same class body) -/

/-- `FIL` has no `__init__` of its own. -/
def FIL_init (q : Question) : Except Err HQ := questionInit q

/-- `FIL.bb`: the partial-marks check lives in the projection. -/
def FIL_bb (hq : HQ) : Except Err (List Str) :=
  if anyParen hq.answers then .error .noParMarks
  else .ok [hq.t, hq.p]

/-- `FIL.latex` returns `None`. -/
def FIL_latex (_ : HQ) : Except Err (Option (List LItem)) := .ok none

/-! ### NUM (numeric) -/

/-- State of a constructed NUM handler: the base state plus `self.ans` and
(if the word `tolerance` occurs in `str(self.answers)`) `self.tol`. -/
structure NumQ where
  hq : HQ
  ans : Str
  tol : Option Str
  deriving DecidableEq, Repr

/-- `NUM.__init__`: the `try` block re-raises every failure (bad float,
missing index) as the single "answer and tolerance must be numbers" error;
then the partial-marks check. -/
def NUM_init (q : Question) : Except Err NumQ := do
  let hq ← questionInit q
  let at_ ←
    (match hq.answers with
     | [] => (.error .notNumeric : Except Err (Str × Option Str))
     | (_, v) :: rest =>
       match pyFloatStr v with
       | none => .error .notNumeric
       | some a =>
         if containsSub "tolerance".toList (pyReprAnswers hq.answers) then
           match rest with
           | [] => .error .notNumeric
           | (_, v2) :: _ =>
             match pyFloatStr v2 with
             | none => .error .notNumeric
             | some tl => .ok (a, some tl)
         else .ok (a, none))
  if anyParen hq.answers then .error .noParMarks
  else pure ⟨hq, at_.1, at_.2⟩

/-- `NUM.bb`: the tolerance test is re-evaluated on `str(self.answers)`;
whenever it holds, `self.tol` was set by `__init__` (`Option.toList`
appends it). -/
def NUM_bb (nq : NumQ) : Except Err (List Str) :=
  if containsSub "tolerance".toList (pyReprAnswers nq.hq.answers) then
    .ok (nq.hq.t :: nq.hq.p :: nq.ans :: nq.tol.toList)
  else
    .ok [nq.hq.t, nq.hq.p, nq.ans]

/-- `NUM.latex`. -/
def NUM_latex (nq : NumQ) : Except Err (Option (List LItem)) :=
  if containsSub "tolerance".toList (pyReprAnswers nq.hq.answers) then
    .ok (some [(LatexLab.s "answer".toList, nq.ans),
      (LatexLab.s "tolerance".toList,
        "$\\pm$".toList ++ (nq.tol.getD []))])
  else
    .ok (some [(LatexLab.s "answer".toList, nq.ans)])

/-! ### JUMBLED_SENTENCE -/

/-- Value attached to a choice: `None`, a single variable string, or the
list from a comma split. -/
inductive JVar
  | nil : JVar
  | one : Str → JVar
  | many : List Str → JVar
  deriving DecidableEq, Repr

/-- Insert or overwrite a key in an insertion-ordered dict
(Python dict assignment keeps the original position on overwrite). -/
def upsert (m : List (Str × α)) (k : Str) (v : α) : List (Str × α) :=
  if (m.map (·.1)).contains k then
    m.map (fun p => if p.1 = k then (k, v) else p)
  else m ++ [(k, v)]

/-- `re.search(r':.*\w', s)`: some colon with a word character somewhere
after it (if the first colon has none, no later colon does either). -/
def colonWordSearch (s : Str) : Bool :=
  match s.dropWhile (· ≠ ':') with
  | [] => false
  | _ :: rest => rest.any isWord

/-- `re.search(r'(?<!\\),', s)`: some comma whose original predecessor is
not a backslash (a leading comma qualifies). -/
def unescCommaGo : Str → Char → Bool
  | [], _ => false
  | c :: cs, prev => (c = ',' ∧ prev ≠ bsl) ∨ unescCommaGo cs c

/-- Unescaped-comma test. -/
def unescComma (s : Str) : Bool := unescCommaGo s ' '

/-- Python `s.split(sep)` for a single-character separator (all
occurrences, escaped or not). -/
def splitOnCh (sep : Char) : Str → List Str
  | [] => [[]]
  | c :: cs =>
    if c = sep then [] :: splitOnCh sep cs
    else
      match splitOnCh sep cs with
      | [] => [[c]]
      | p :: ps => (c :: p) :: ps

/-- `s.replace('\\', '')`: remove every backslash. -/
def removeBsl (s : Str) : Str := s.filter (· ≠ bsl)

/-- State of a constructed JUMBLED_SENTENCE handler. -/
structure JSQ where
  hq : HQ
  mappings : List (Str × JVar)
  deriving DecidableEq, Repr

/-- The per-answer loop of `JUMBLED_SENTENCE.__init__`, building the
mappings dict and the flat variable list. -/
def jsLoop : List Str → List (Str × JVar) → List Str →
    Except Err (List (Str × JVar) × List Str)
  | [], maps, vars => .ok (maps, vars)
  | ans :: rest, maps, vars =>
    if colonWordSearch ans then
      match splitOnCh ':' ans with
      | [a, b] =>
        let choice := trimWS a
        let varPart := trimWS b
        if unescComma varPart then
          let vs := (splitOnCh ',' varPart).map trimWS
          jsLoop rest (upsert maps choice (.many vs)) (vars ++ vs)
        else
          let v := removeBsl varPart
          jsLoop rest (upsert maps choice (.one v)) (vars ++ [v])
      | _ => .error .unpackError
    else
      jsLoop rest (upsert maps (trimColon ans) .nil) vars

/-- `JUMBLED_SENTENCE.__init__`. -/
def JS_init (q : Question) : Except Err JSQ := do
  let hq ← questionInit q
  if anyParen hq.answers then .error .noParMarks
  else do
    let mv ← jsLoop (hq.answers.map (·.2)) [] []
    if mv.2.any (containsCh ' ') then .error .spacesInVar
    else if ¬ mv.2.all (fun v => containsSub v hq.p) then .error .missingVars
    else if ¬ (hq.p.count '[' = hq.p.count ']' ∧ hq.p.count ']' = mv.2.length) then
      .error .bracketCount
    else pure ⟨hq, mv.1⟩

/-- `JUMBLED_SENTENCE.bb`: per mapping the choice, its variables (none for
`None`) and an empty filler string. -/
def JS_bb (jq : JSQ) : Except Err (List Str) :=
  .ok (jq.hq.t :: jq.hq.p :: (jq.mappings.flatMap (fun m =>
    m.1 :: (match m.2 with
            | .nil => []
            | .one v => [v]
            | .many vs => vs) ++ [[]])))

/-- `JUMBLED_SENTENCE.latex`: `str(None)` is the string `None`. -/
def JS_latex (jq : JSQ) : Except Err (Option (List LItem)) :=
  .ok (some (jq.mappings.map (fun m =>
    (LatexLab.s m.1,
     match m.2 with
     | .nil => "None".toList
     | .one v => v
     | .many vs => commaJoin vs))))

/-! ### FIB_PLUS (multi-blank fill-in) -/

/-- Value attached to a variable. -/
inductive FVal
  | one : Str → FVal
  | many : List Str → FVal
  deriving DecidableEq, Repr

/-- State of a constructed FIB_PLUS handler. -/
structure FibQ where
  hq : HQ
  mappings : List (Str × FVal)
  deriving DecidableEq, Repr

/-- The per-answer loop of `FIB_PLUS.__init__`; an entry without a
colon-plus-word-character shape is the fatal "Variable is not given
answers" error. -/
def fibLoop : List Str → List (Str × FVal) → Except Err (List (Str × FVal))
  | [], maps => .ok maps
  | ans :: rest, maps =>
    if colonWordSearch ans then
      match splitOnCh ':' ans with
      | [a, b] =>
        let varName := trimWS a
        let ansPart := trimWS b
        if unescComma ansPart then
          fibLoop rest (upsert maps varName (.many ((splitOnCh ',' ansPart).map trimWS)))
        else
          fibLoop rest (upsert maps varName (.one (removeBsl ansPart)))
      | _ => .error .unpackError
    else .error .varNoAnswers

/-- `FIB_PLUS.__init__`. -/
def FIB_init (q : Question) : Except Err FibQ := do
  let hq ← questionInit q
  if anyParen hq.answers then .error .noParMarks
  else do
    let maps ← fibLoop (hq.answers.map (·.2)) []
    pure ⟨hq, maps⟩

/-- `FIB_PLUS.bb`. -/
def FIB_bb (fq : FibQ) : Except Err (List Str) :=
  .ok (fq.hq.t :: fq.hq.p :: (fq.mappings.flatMap (fun m =>
    m.1 :: (match m.2 with
            | .one v => [v]
            | .many vs => vs) ++ [[]])))

/-- `FIB_PLUS.latex`. -/
def FIB_latex (fq : FibQ) : Except Err (Option (List LItem)) :=
  .ok (some (fq.mappings.map (fun m =>
    (LatexLab.s m.1,
     match m.2 with
     | .one v => v
     | .many vs => commaJoin vs))))

/-! ### Type dispatch and the import-format renderer -/

/-- The recognised question types (`Q_TYPES`, in source order). -/
inductive QType
  | MC | MA | TF | ESS | ORD | MAT | FIL | NUM | SR | OP | JS | FIB
  deriving DecidableEq, Repr

/-- The `Q_TYPES` strings, in source order. -/
def qTypeStrs : List Str :=
  ["MC".toList, "MA".toList, "TF".toList, "ESS".toList, "ORD".toList,
   "MAT".toList, "FIL".toList, "NUM".toList, "SR".toList, "OP".toList,
   "JUMBLED_SENTENCE".toList, "FIB_PLUS".toList]

/-- `question["type"] in Q_TYPES` plus the `HANDLERS` lookup. -/
def parseQType (t : Str) : Option QType :=
  if t = "MC".toList then some .MC
  else if t = "MA".toList then some .MA
  else if t = "TF".toList then some .TF
  else if t = "ESS".toList then some .ESS
  else if t = "ORD".toList then some .ORD
  else if t = "MAT".toList then some .MAT
  else if t = "FIL".toList then some .FIL
  else if t = "NUM".toList then some .NUM
  else if t = "SR".toList then some .SR
  else if t = "OP".toList then some .OP
  else if t = "JUMBLED_SENTENCE".toList then some .JS
  else if t = "FIB_PLUS".toList then some .FIB
  else none

/-- `HANDLERS[t](question).bb()`: construct the handler (running its
validation) and take the import projection.  `SR` shares the `ESS`
functions and `OP` the `FIL` functions (class inheritance with an empty
body). -/
def bbOf : QType → Question → Except Err (List Str)
  | .MC, q => do MC_bb (← MC_init q)
  | .MA, q => do MC_bb (← MA_init q)
  | .TF, q => do TF_bb (← TF_init q)
  | .ESS, q => do ESS_bb (← ESS_init q)
  | .ORD, q => do ORD_bb (← ORD_init q)
  | .MAT, q => do MAT_bb (← MAT_init q)
  | .FIL, q => do FIL_bb (← FIL_init q)
  | .NUM, q => do NUM_bb (← NUM_init q)
  | .SR, q => do ESS_bb (← ESS_init q)
  | .OP, q => do FIL_bb (← FIL_init q)
  | .JS, q => do JS_bb (← JS_init q)
  | .FIB, q => do FIB_bb (← FIB_init q)

/-- The prompt spacer appended by `q2bb1` (`items[1] += '<p></p>'`;
`items` always has at least two elements when `bb()` returns, so the
IndexError branch is unreachable). -/
def addSpacer : List Str → Except Err (List Str)
  | a :: b :: rest => .ok (a :: (b ++ "<p></p>".toList) :: rest)
  | _ => .error .indexError

/-- The items of `q2bb1` just before the notes removal: handler
construction and projection, prompt spacer, then the image substitution
applied to every item. -/
def q2bb_items (q : Question) : Except Err (List Str) := do
  let t ← getKey q.type
  match parseQType t with
  | none => .error .unknownType
  | some k => do
    let items ← bbOf k q
    let items ← addSpacer items
    pure (items.map imageSub)

/-- The string `notes`. -/
def notesStr : Str := "notes".toList

/-- `if 'notes' in items: del items[items.index('notes')-1:items.index('notes')+1]`.
For a first occurrence at index `i ≥ 1` this removes elements `i-1` and
`i`.  At index `0` the Python slice is `items[-1:1]`, which is the whole
list when it has exactly one element and empty otherwise. -/
def removeNotes (items : List Str) : List Str :=
  if items.contains notesStr then
    let i := firstIdx notesStr items
    if 1 ≤ i then items.take (i - 1) ++ items.drop (i + 1)
    else if items.length = 1 then [] else items
  else items

/-- `"\t".join(items)`. -/
def tabJoin : List Str → Str
  | [] => []
  | [x] => x
  | x :: xs => x ++ '\t' :: tabJoin xs

/-- `q2bb1(question)`: one tab-delimited import line, with `$$` replaced
by `~~` after joining. -/
def q2bb1 (q : Question) : Except Err Str := do
  let items ← q2bb_items q
  pure (replaceAll "$$".toList "~~".toList (tabJoin (removeNotes items)))

/-- The `q2bb` generator as consumed by `main`'s write loop: the lines
written before the first failure, and that failure if any. -/
def q2bb_lines : List Question → List Str × Option Err
  | [] => ([], none)
  | q :: rest =>
    match q2bb1 q with
    | .error e => ([], some e)
    | .ok l =>
      let (ls, e?) := q2bb_lines rest
      (l :: ls, e?)

/-! ### The document-format renderer -/

/-- `HANDLERS[t](question).latex()`. -/
def latexOf : QType → Question → Except Err (Option (List LItem))
  | .MC, q => do MC_latex (← MC_init q)
  | .MA, q => do MC_latex (← MA_init q)
  | .TF, q => do TF_latex (← TF_init q)
  | .ESS, q => do ESS_latex (← ESS_init q)
  | .ORD, q => do ORD_latex (← ORD_init q)
  | .MAT, q => do MAT_latex (← MAT_init q)
  | .FIL, q => do FIL_latex (← FIL_init q)
  | .NUM, q => do NUM_latex (← NUM_init q)
  | .SR, q => do ESS_latex (← ESS_init q)
  | .OP, q => do FIL_latex (← FIL_init q)
  | .JS, q => do JS_latex (← JS_init q)
  | .FIB, q => do FIB_latex (← FIB_init q)

/-- `latex_item(item)`: translate `<br>`, escape bare `%`, demote `$$` to
`$`, then either the partial-credit form (label containing `(`: slice out
the parenthesised part — `typ.index(')')` raising when there is no `)` —
and take the first letter run) or the plain emphasised form.  An integer
label (ORD) hits `'(' in typ` with a non-string and raises TypeError. -/
def latex_item (it : LItem) : Except Err (List Str) :=
  let a := replaceAll "$$".toList "$".toList
    (pctEsc (replaceAll "<br>".toList [bsl, bsl] it.2))
  match it.1 with
  | .n _ => .error .typeError
  | .s typ =>
    if containsCh '(' typ then
      if ¬ containsCh ')' typ then .error .substrNotFound
      else
        let i := firstIdx '(' typ
        let j := firstIdx ')' typ
        let parCred := (typ.drop i).take (j + 1 - i)
        match firstAlphaRun typ with
        | none => .error .indexError
        | some t2 =>
          .ok (["\\textbf".toList ++ lb :: parCred ++ rb :: " - \\emph".toList
            ++ lb :: t2 ++ rb :: ':' :: ' ' :: a])
    else
      .ok (["\\emph".toList ++ lb :: typ ++ rb :: ':' :: ' ' :: a])

/-- The tokens of the document renderer. -/
def enumStartTok : Str := "\\begin".toList ++ lb :: "enumerate".toList ++ [rb]

/-- `\end{enumerate}`. -/
def enumEndTok : Str := "\\end".toList ++ lb :: "enumerate".toList ++ [rb]

/-- `\item`. -/
def itemTok : Str := "\\item".toList

/-- The non-enumerated item emission of `q2latex1` (one item, or the
ORD/MAT/JUMBLED_SENTENCE types): per item an empty line then the
`latex_item` lines; on error the already-yielded lines are kept. -/
def emitFlat : List LItem → List Str × Option Err
  | [] => ([], none)
  | it :: rest =>
    match latex_item it with
    | .error e => ([[]], some e)
    | .ok ls =>
      let (l2, e?) := emitFlat rest
      ([] :: ls ++ l2, e?)

/-- `latex_enumerate(items, latex_item)` after `yield ENUM_START`: per item
`\item` then its lines, then `\end{enumerate}`. -/
def emitEnumItems : List LItem → List Str × Option Err
  | [] => ([enumEndTok], none)
  | it :: rest =>
    match latex_item it with
    | .error e => ([itemTok], some e)
    | .ok ls =>
      let (l2, e?) := emitEnumItems rest
      (itemTok :: ls ++ l2, e?)

/-- In-place image substitution over the answers
(`question['answers'][i] = (label, re.sub(imgpat, repl, value))`;
the indexed loop touches each position once, i.e. it maps). -/
def ansImg (ans : List (Str × Str)) : List (Str × Str) :=
  ans.map (fun a => (a.1, latexImageSub a.2))

/-- The item-emission part of `q2latex1` once the projection `items` is at
hand: nothing for `None`/empty, the flat form for a single item or the
ORD/MAT/JUMBLED_SENTENCE types, otherwise the enumerated form with the
`notes` item extracted and re-emitted as a trailing bold note (skipped when
the extracted note value is the empty string, and never reached if the
enumeration failed). -/
def q2latexItems (k : QType) (items? : Option (List LItem)) : List Str × Option Err :=
  match items? with
  | none => ([], none)
  | some [] => ([], none)
  | some its =>
    if its.length = 1 ∨ (k = .ORD ∨ k = .MAT ∨ k = .JS) then
      emitFlat its
    else
      let labs := its.map (·.1)
      let notes : Str :=
        if labs.contains (LatexLab.s notesStr) then
          ((its.get? (firstIdx (LatexLab.s notesStr) labs)).map (·.2)).getD []
        else []
      let its' :=
        if labs.contains (LatexLab.s notesStr) then
          let i := firstIdx (LatexLab.s notesStr) labs
          its.take i ++ its.drop (i + 1)
        else its
      let (ls, e?) := emitEnumItems its'
      (enumStartTok :: ls ++
        (if e? = none ∧ notes ≠ [] then ["\\textbf".toList ++ lb :: "Notes: ".toList ++ rb :: notes] else []),
       e?)

/-- `q2latex1(question)`: returns the final state of the (mutated) record
together with the yielded lines and the error aborting the generator, if
any.  The record mutation — the in-place image substitution on the answer
values — happens before the first `yield`, so it is visible in every
outcome reached after the prompt lookup. -/
def q2latex1 (q : Question) : Question × (List Str × Option Err) :=
  match q.prompt with
  | none => (q, ([], some .keyError))
  | some p0 =>
    let p := latexImageSub (pctEsc (replaceAll "<br>".toList [bsl, bsl, bsl, bsl] p0))
    let q' := { q with answers := ansImg q.answers }
    match q'.type with
    | none => (q', ([p], some .keyError))
    | some t =>
      match parseQType t with
      | none => (q', ([p], some .unknownType))
      | some k =>
        match latexOf k q' with
        | .error e => (q', ([p], some e))
        | .ok items? =>
          let (ls, e?) := q2latexItems k items?
          (q', (p :: ls, e?))

/-- The `latex_enumerate(questions, q2latex1)` consumption: per question
`\item` then its lines, stopping at the first error. -/
def q2latexQs : List Question → List Str × Option Err
  | [] => ([enumEndTok], none)
  | q :: rest =>
    match q2latex1 q with
    | (_, (ls, some e)) => (itemTok :: ls, some e)
    | (_, (ls, none)) =>
      let (l2, e?) := q2latexQs rest
      (itemTok :: ls ++ l2, e?)

/-- `LATEX_START.splitlines()`. -/
def latexStartLines : List Str :=
  [[], "\\documentclass".toList ++ lb :: "article".toList ++ [rb],
   "\\usepackage".toList ++ lb :: "amsmath".toList ++ [rb],
   "\\usepackage".toList ++ lb :: "amssymb".toList ++ [rb],
   "\\usepackage".toList ++ lb :: "graphicx".toList ++ [rb],
   "\\begin".toList ++ lb :: "document".toList ++ [rb]]

/-- `LATEX_END.splitlines()`. -/
def latexEndLines : List Str :=
  [[], "\\end".toList ++ lb :: "document".toList ++ [rb]]

/-- The `q2latex` generator as consumed by `main`'s write loop: preamble,
enumerated questions, postamble; an error keeps everything yielded so
far. -/
def q2latexDoc (qs : List Question) : List Str × Option Err :=
  let (ls, e?) := q2latexQs qs
  (latexStartLines ++ enumStartTok :: ls ++ (if e? = none then latexEndLines else []),
   e?)

/-! ### The line parser (`txt2py`) -/

/-- The parser loop over lines: comments and blanks skipped, a line of
seven dashes starts a fresh record, a colon line updates the current
(= last created) record; a colon line before any delimiter hits Python's
unbound local `question` (UnboundLocalError, modelled as `nameError`); any
other line is silently ignored. -/
def parseLines : List Str → List Question → Except Err (List Question)
  | [], acc => .ok acc
  | line :: rest, acc =>
    if line = [] ∨ line.head? = some '#' then parseLines rest acc
    else if startsWithS "-------".toList line then
      parseLines rest (acc ++ [⟨none, none, []⟩])
    else if containsCh ':' line then
      let key := trimWS (line.takeWhile (· ≠ ':'))
      let val := trimWS ((line.dropWhile (· ≠ ':')).tail)
      match acc.getLast? with
      | none => .error .nameError
      | some lastq =>
        let q' :=
          if key = "type".toList then { lastq with type := some val }
          else if key = "prompt".toList then { lastq with prompt := some val }
          else { lastq with answers := lastq.answers ++ [(key, val)] }
        parseLines rest (acc.dropLast ++ [q'])
    else parseLines rest acc

/-- `txt2py(filename)`: pre-flight check on the raw text, the three
normalisation rewrites, then the line loop. -/
def txt2py (text : Str) : Except Err (List Question) :=
  match parse_checker text with
  | some r => .error (.syntaxErr r)
  | none => parseLines (splitLinesPy (normalizeText text)) []

/-! ### The variant-expansion engine -/

/-- `extract_variants(question)`: per unboxed item (the answers in order,
then the `('prompt', prompt)` pair — a KeyError if the record has no
prompt), the split variant lists of the label's and of the value's
placeholders; all collected list lengths must be equal and at least one
must exist (`len(set(lens)) != 1` otherwise), and the common length is
returned.  The length list puts all value lists before all label lists,
exactly as the source comprehension does. -/
def extract_variants (q : Question) :
    Except Err (List (List (List Str) × List (List Str)) × Nat) := do
  let p ← getKey q.prompt
  let unboxed := q.answers ++ [("prompt".toList, p)]
  let variants := unboxed.map (fun it =>
    ((findPH it.1).map splitVars, (findPH it.2).map splitVars))
  let lens := (variants.flatMap (fun v => v.2.map List.length))
    ++ (variants.flatMap (fun v => v.1.map List.length))
  match lens with
  | [] => .error .variantsLength
  | n :: ns => if ns.all (· = n) then .ok (variants, n) else .error .variantsLength

/-- The i-th element of a placeholder's split variant list, with its
escaped commas unescaped (`variants[j][·][k][i].replace('\,', ',')`).
`extract_variants` guarantees `i` is in range, so the `getD` default is
unreachable. -/
def variantAt (inner : Str) (i : Nat) : Str :=
  replaceAll [bsl, ','] [','] ((splitVars inner).getD i [])

/-- Substitution state: the current prompt and answers of the deep-copied
record. -/
abbrev SubstSt := Str × List (Str × Str)

/-- One text-placeholder replacement pass for the j-th unboxed item: every
occurrence of the full placeholder string is replaced in the *current*
field text (`str.replace` replaces all occurrences).  When the item's
original label is the string `prompt` — the appended prompt item, or an
answer that happens to carry that label — the record's prompt is the
target, otherwise the j-th answer's value. -/
def substTextPH (isP : Bool) (j i : Nat) (inners : List Str) (st : SubstSt) : SubstSt :=
  inners.foldl (fun st inner =>
    let entry := phFull inner
    let var := variantAt inner i
    if isP then (replaceAll entry var st.1, st.2)
    else
      let cur := st.2.getD j ([], [])
      (st.1, st.2.set j (cur.1, replaceAll entry var cur.2))) st

/-- One label-placeholder replacement pass for the j-th unboxed item
(the appended prompt item has the literal label `prompt`, which contains no
placeholder, so this pass never fires for it). -/
def substTypePH (j i : Nat) (inners : List Str) (st : SubstSt) : SubstSt :=
  inners.foldl (fun st inner =>
    let entry := phFull inner
    let var := variantAt inner i
    let cur := st.2.getD j ([], [])
    (st.1, st.2.set j (replaceAll entry var cur.1, cur.2))) st

/-- The body of `produce_variant_questions`' outer loop for variant index
`i`: deep-copy the record, and for each unboxed item of the *original*
record replace its found placeholders (value placeholders first, then
label placeholders, as in the source). -/
def substQuestion (q : Question) (p : Str) (i : Nat) : Question :=
  let items := q.answers ++ [("prompt".toList, p)]
  let fin := (enumFrom 0 items).foldl (fun (st : SubstSt) ji =>
    let j := ji.1
    let item := ji.2
    let st1 := substTextPH (item.1 = "prompt".toList) j i (findPH item.2) st
    substTypePH j i (findPH item.1) st1) (p, q.answers)
  { q with prompt := some fin.1, answers := fin.2 }

/-- `IN_TYPES + ('type', 'prompt')`. -/
def inTypesAll : List Str :=
  ["correct".toList, "incorrect".toList, "answer".toList, "match_a".toList,
   "match_b".toList, "example".toList, "tolerance".toList, "variable".toList,
   "q_word".toList, "q_phrase".toList, "notes".toList,
   "type".toList, "prompt".toList]

/-- The per-variant label check of `produce_variant_questions`:
`any(re.findall("[a-zA-Z]+", typ)[0] not in IN_TYPES + ('type','prompt')
for typ, _ in answers)` evaluated left to right — a letterless label raises
IndexError, an unrecognised first letter run the "Unrecognised key"
error. -/
def labelsOk : List (Str × Str) → Except Err Unit
  | [] => .ok ()
  | (lab, _) :: rest =>
    match firstAlphaRun lab with
    | none => .error .indexError
    | some a =>
      if ¬ inTypesAll.contains a then .error .unrecognisedKey
      else labelsOk rest

/-- The outer loop of `produce_variant_questions`: for each `i < n` the
substituted copy, each checked for recognised labels before the next is
produced; the exception discards all copies. -/
def produceGo (q : Question) (p : Str) : Nat → Nat → Except Err (List Question)
  | _, 0 => .ok []
  | i, Nat.succ rem => do
    let vq := substQuestion q p i
    let _ ← labelsOk vq.answers
    let r ← produceGo q p (i + 1) rem
    pure (vq :: r)

/-- `produce_variant_questions(question)`.  The source indexes the
structure returned by `extract_variants` as `variants[j][·][k][i]`;
since `variants[j]` is built by mapping `splitVars` over the `findPH`
inner texts of the j-th unboxed item, `substQuestion` recomputes the same
lists directly from the inner texts.  The prompt key is present whenever
`extract_variants` succeeds. -/
def produce_variant_questions (q : Question) : Except Err (List Question) := do
  let vn ← extract_variants q
  let p ← getKey q.prompt
  produceGo q p 0 vn.2

/-! ### `main` : expansion dispatch and the output file -/

/-- The placeholder marker `%{`. -/
def vMark : Str := ['%', lb]

/-- `re.search('%{', str(question))`.  The dict repr is the `repr`s of the
field strings joined by fixed punctuation (`{'answers': [...], 'type':
'...', 'prompt': '...'}`); no `%` is ever directly followed by `{` across
a boundary of that punctuation and the `repr` escaping neither splits nor
creates a `%{`, so the search is equivalent to searching the `repr` of
each present field. -/
def hasMarker (q : Question) : Bool :=
  containsSub vMark (pyReprAnswers q.answers)
  || (match q.type with | some t => containsSub vMark (pyReprStr t) | none => false)
  || (match q.prompt with | some p => containsSub vMark (pyReprStr p) | none => false)

/-- The expansion loop of `main`: records with the marker expand through
`produce_variant_questions`, all others are appended unchanged. -/
def expandAll : List Question → Except Err (List Question)
  | [] => .ok []
  | q :: rest =>
    if hasMarker q then do
      let vs ← produce_variant_questions q
      let r ← expandAll rest
      pure (vs ++ r)
    else do
      let r ← expandAll rest
      pure (q :: r)

/-- `main(out_format='--bb', random=False, ...)`: parse, expand, then open
the output file and write lines while consuming the `q2bb` generator.  The
first component models the output file: `none` when the failure happened
before `open(out_file, 'w')`, otherwise the lines actually written (the
randomise branch is not taken; shuffling is not modelled). -/
def mainBB (text : Str) : Option (List Str) × Option Err :=
  match txt2py text with
  | .error e => (none, some e)
  | .ok raw =>
    match expandAll raw with
    | .error e => (none, some e)
    | .ok qs =>
      let (ls, e?) := q2bb_lines qs
      (some ls, e?)

/-- `main(out_format='--latex', ...)`, same file model. -/
def mainLatex (text : Str) : Option (List Str) × Option Err :=
  match txt2py text with
  | .error e => (none, some e)
  | .ok raw =>
    match expandAll raw with
    | .error e => (none, some e)
    | .ok qs =>
      let (ls, e?) := q2latexDoc qs
      (some ls, e?)

deriving instance DecidableEq for Except

instance : DecidableEq (List (List (List Str) × List (List Str)) × Nat) :=
  @instDecidableEqProd _ _ inferInstance inferInstance

/-! ### Spec-side notions used to state the claims -/

/-- Spec notion for C6: an answer label classified "correct" when its
parenthesised partial-credit suffix (everything from the first `(` on) is
ignored and surrounding spaces dropped. -/
def specCorrectLabel (l : Str) : Bool :=
  trimWS (l.takeWhile (· ≠ '(')) = "correct".toList

/-- Spec notion for C4: a record with a templated field, i.e. a complete
placeholder of the form `%{...}%` in the prompt, a label or a value. -/
def templatedRecord (q : Question) : Bool :=
  q.answers.any (fun a => findPH a.1 ≠ [] ∨ findPH a.2 ≠ [])
  || (match q.prompt with | some p => findPH p ≠ [] | none => false)
  || (match q.type with | some t => findPH t ≠ [] | none => false)

/-- The lengths collected by `extract_variants` for a record whose prompt
is `p` (value lists first, then label lists, as in the source). -/
def lensOf (q : Question) (p : Str) : List Nat :=
  let unboxed := q.answers ++ [("prompt".toList, p)]
  (unboxed.flatMap (fun it => (findPH it.2).map (fun inner => (splitVars inner).length)))
    ++ (unboxed.flatMap (fun it => (findPH it.1).map (fun inner => (splitVars inner).length)))

/-- `len(set(lens)) == 1`: the length list is non-empty and constant. -/
def allEqNe : List Nat → Bool
  | [] => false
  | n :: ns => ns.all (· = n)

/-- The lines an import-format run writes: the rendered lines of the
maximal prefix of questions on which `q2bb1` succeeds. -/
def bbWrittenModel (qs : List Question) : List Str :=
  (qs.takeWhile (fun q => (q2bb1 q).isOk)).filterMap (fun q => (q2bb1 q).toOption)

/-- The error aborting an import-format run: the failure of the first
question on which `q2bb1` fails, if any. -/
def bbErrModel (qs : List Question) : Option Err :=
  ((qs.dropWhile (fun q => (q2bb1 q).isOk)).head?).bind (fun q =>
    match q2bb1 q with
    | .error e => some e
    | .ok _ => none)

/-- Printable ASCII character other than backslash and single quote: kept
verbatim by the string `repr`. -/
def plainChar (c : Char) : Bool :=
  c ≠ bsl ∧ c ≠ '\'' ∧ 31 < c.toNat ∧ c.toNat < 127

/-- A letter-free run of plain characters: the shape of a partial-credit
style suffix (e.g. ` (50%)`) after a `correct`/`incorrect` stem. -/
def goodSuffix (s : Str) : Bool :=
  s.all (fun c => isAlpha c = false ∧ plainChar c)

/-- A label consisting of `correct` or `incorrect` followed by a
letter-free plain suffix. -/
def goodLabel (l : Str) : Bool :=
  (startsWithS "correct".toList l ∧ goodSuffix (l.drop 7))
  ∨ (startsWithS "incorrect".toList l ∧ goodSuffix (l.drop 9))

/-- The body of the labels-list `repr` after the opening bracket: each
label single-quoted, separated by `, `, closed by `]`. -/
def piecesStr : List Str → Str
  | [] => [']']
  | l :: rest =>
    '\'' :: (l ++ ('\'' :: ((if rest.isEmpty then [] else [',', ' ']) ++ piecesStr rest)))

example : replaceAll "$$".toList "~~".toList "$$$a$$".toList = "~~$a~~".toList := by decide

example : countSub "ab".toList "ababab".toList = 3 := by decide

example : trimWS "  x y ".toList = "x y".toList := by decide

example : findPH "a %\x7bone, two\x7d% b %\x7bx\x7d%".toList
    = ["one, two".toList, "x".toList] := by decide

example : splitVars "one\\, two, three".toList
    = ["one\\, two".toList, "three".toList] := by decide

example : imageSub "see @\x7bfig1\x7d@!".toList
    = "see +++FIGURE \"fig1\" HERE+++!".toList := by decide

example : pctEsc "50% \\% x".toList = "50\\% \\% x".toList := by decide

example : brJoin "a \n>  b\nc".toList = "a<br>b\nc".toList := by decide

example : normalizeText "x \\\\\n y\\\nz".toList = "x\\\\yz".toList := by decide

example : splitLinesPy "a\nb\n".toList = ["a".toList, "b".toList] := by decide

example : parse_checker "a $x y$ b".toList = some PCRule.eqSpace := by decide

example : parse_checker "a $xy$ x\\mathrm\x7bab\x7d".toList = none := by decide

example : parse_checker "a<b".toList = some PCRule.ltNoSpace := by decide

example : pyReprAnswers [("answer".toList, "true".toList)]
    = "[('answer', 'true')]".toList := by decide

example : pyReprStr "do\"n't".toList = "'do\"n\\'t'".toList := by decide

example : countMC (pyReprStrList ["correct".toList, "incorrect".toList]) = 1 := by
  decide

example : firstAlphaRun "correct (50%)".toList = some "correct".toList := by decide

example : pyFloatStr "3.14".toList = some "3.14".toList := by decide

example : pyFloatStr " -2 ".toList = some "-2.0".toList := by decide

example : pyFloatStr "1e3".toList = some "1000.0".toList := by decide

example : pyFloatStr ".5".toList = some "0.5".toList := by decide

example : pyFloatStr "abc".toList = none := by decide

set_option maxRecDepth 4096 in
example :
    txt2py "-------\ntype: TF\nprompt: The sky is blue\nanswer: true\n".toList
      = .ok [⟨some "TF".toList, some "The sky is blue".toList,
          [("answer".toList, "true".toList)]⟩] := by decide

set_option maxRecDepth 8192 in
example :
    mainBB "-------\ntype: TF\nprompt: The sky is blue\nanswer: true\n".toList
      = (some ["TF\tThe sky is blue<p></p>\ttrue".toList], none) := by decide

/-! ## The claims -/

set_option maxRecDepth 16384 in
/-- C5: the placeholder inner text `one\, two, three` splits into exactly
the two variants `one\, two` and `three` (the escaped comma is not a
separator), and expanding a record carrying that placeholder yields
exactly two records in which the placeholder is replaced by `one, two`
resp. `three` — the escape removed, the comma literal. -/
theorem C5_escaped_comma :
    splitVars "one\\, two, three".toList = ["one\\, two".toList, "three".toList]
    ∧ produce_variant_questions
        ⟨some "TF".toList, some "Pick %\x7bone\\, two, three\x7d%".toList,
          [("answer".toList, "true".toList)]⟩
      = .ok [⟨some "TF".toList, some "Pick one, two".toList,
              [("answer".toList, "true".toList)]⟩,
             ⟨some "TF".toList, some "Pick three".toList,
              [("answer".toList, "true".toList)]⟩] := by
  constructor
  · decide
  · decide

set_option maxRecDepth 16384 in
/-- C8: the four-line true/false document renders to the
single import-format line `TF<tab>The sky is blue<p></p><tab>true`, and the run
succeeds (no error, exactly this one line in the output file). -/
theorem C8_tf_end_to_end :
    mainBB "-------\ntype: TF\nprompt: The sky is blue\nanswer: true\n".toList
      = (some ["TF\tThe sky is blue<p></p>\ttrue".toList], none) := by
  decide

set_option maxRecDepth 16384 in
/-- C7: on an input whose first field line precedes every delimiter line,
the embedded parser reproduces the code's behaviour: the unbound local
`question` (`Err.nameError`, Python's UnboundLocalError) — an unstructured
interpreter failure, not the structured "answer line before question
start" diagnostic the claim describes. -/
theorem C7_unbound_local :
    txt2py "a: b\n-------\ntype: TF\nprompt: x\nanswer: true\n".toList
      = .error Err.nameError := by
  decide

/-- C2 counterexample: an essay record with an empty answers sequence.
Construction (`ESS` adds nothing to `Question.__init__`) succeeds, yet
the import projection raises IndexError — the source indexes `answers[0]`
before its own emptiness test, so the `[type, prompt]` branch for the
permitted empty case is dead code. -/
theorem C2_cex :
    ESS_init ⟨some "ESS".toList, some "p".toList, []⟩
      = .ok ⟨"ESS".toList, "p".toList, []⟩
    ∧ ESS_bb ⟨"ESS".toList, "p".toList, []⟩ = .error Err.indexError := by
  constructor
  · decide
  · decide

/-- C2 amended: for an essay/short-response or file-upload record whose
construction succeeded, the document projections never fail, but
the import projections validate on their own: the essay one raises IndexError
on an empty answers sequence and a partial-marks error when the first
label carries `(`, and the file-upload one raises a partial-marks error
when any label carries `(`; otherwise they return the projected fields. -/
theorem C2_amended (h : HQ) :
    (h.answers = [] → ESS_bb h = .error Err.indexError ∧ ESS_latex h = .ok none) ∧
    (∀ l v r, h.answers = (l, v) :: r →
      ESS_bb h = (if containsCh '(' l then .error Err.noParMarks else .ok [h.t, h.p, v]) ∧
      ESS_latex h = .ok (some [(LatexLab.s "example".toList, v)])) ∧
    FIL_bb h = (if anyParen h.answers then .error Err.noParMarks else .ok [h.t, h.p]) ∧
    FIL_latex h = .ok none := by
  refine ⟨fun he => ?_, fun l v r he => ?_, ?_, rfl⟩
  · rw [ESS_bb, ESS_latex, he]
    exact ⟨rfl, rfl⟩
  · rw [ESS_bb, ESS_latex, he]
    exact ⟨rfl, rfl⟩
  · rfl

/-- C2 witness: the amended theorem applied to a concrete validated essay
state with one clean example answer. -/
theorem C2_witness :
    ESS_bb ⟨"ESS".toList, "p".toList, [("example".toList, "ans".toList)]⟩
      = .ok ["ESS".toList, "p".toList, "ans".toList] := by
  have h := ((C2_amended ⟨"ESS".toList, "p".toList,
    [("example".toList, "ans".toList)]⟩).2.1 "example".toList "ans".toList [] rfl).1
  rwa [if_neg (by decide)] at h

/-- Helper: the in-place image substitution leaves the answers unchanged
when no value is rewritten. -/
theorem ansImg_fix {l : List (Str × Str)} (h : ∀ a ∈ l, latexImageSub a.2 = a.2) :
    ansImg l = l := by
  induction l with
  | nil => rfl
  | cons a r ih =>
    unfold ansImg at *
    simp only [List.map_cons]
    rw [h a (by simp), ih (fun b hb => h b (by simp [hb]))]

/-- Helper: the record state returned by `q2latex1`. -/
theorem q2latex1_state (q : Question) :
    (q2latex1 q).1 = (match q.prompt with
      | none => q
      | some _ => { q with answers := ansImg q.answers }) := by
  unfold q2latex1
  cases hp : q.prompt with
  | none => rfl
  | some p0 =>
    dsimp only
    cases hq : (Question.mk q.type (some p0) q.answers).type with
    | none => simp_all
    | some t =>
      cases hk : parseQType t with
      | none => simp_all
      | some k =>
        cases hl : latexOf k { q with answers := ansImg q.answers } with
        | error e => simp_all
        | ok its => simp_all

/-- C9 counterexample: rendering a record through the document-format pass
rewrites its answers in place — the image placeholder in an answer value is
replaced inside the record itself, so the record after `q2latex1` differs
from the record before. -/
theorem C9_cex :
    (q2latex1 ⟨some "ESS".toList, some "p".toList,
        [("example".toList, "see @\x7bfig\x7d@".toList)]⟩).1
      = ⟨some "ESS".toList, some "p".toList,
         [("example".toList,
           "see \\includegraphics[width=0.7\\textwidth]\x7bfig\x7d".toList)]⟩
    ∧ (q2latex1 ⟨some "ESS".toList, some "p".toList,
        [("example".toList, "see @\x7bfig\x7d@".toList)]⟩).1
      ≠ ⟨some "ESS".toList, some "p".toList,
         [("example".toList, "see @\x7bfig\x7d@".toList)]⟩ := by
  constructor
  · decide
  · decide

/-- C9 amended: after parsing, no stage mutates a record in place except
variant expansion, the sanctioned shuffle, and the document-format render
pass, which rewrites the image placeholders of the answer values inside
the record (once the prompt lookup succeeded): the record's type and
prompt are never changed, a record whose prompt key is missing is left
untouched, and the render pass leaves the whole record unchanged exactly
when no answer value contains an image placeholder to rewrite. 
The import-format pass performs no record update at all (its embedding
`q2bb1` is a pure function of the record, as the source performs no
assignment to the question there). -/
theorem C9_amended (q : Question) :
    ((q2latex1 q).1.type = q.type ∧ (q2latex1 q).1.prompt = q.prompt) ∧
    (q.prompt = none → (q2latex1 q).1 = q) ∧
    (q.prompt ≠ none → (q2latex1 q).1.answers = ansImg q.answers) ∧
    ((∀ a ∈ q.answers, latexImageSub a.2 = a.2) → (q2latex1 q).1 = q) := by
  have hstate := q2latex1_state q
  refine ⟨⟨?_, ?_⟩, ?_, ?_, ?_⟩
  · rw [hstate]
    cases hq : q.prompt with
    | none => rfl
    | some p0 => rfl
  · rw [hstate]
    cases hq : q.prompt with
    | none => exact hq
    | some p0 => rfl
  · intro hp; rw [hstate, hp]
  · intro hp
    rw [hstate]
    cases hq : q.prompt with
    | none => exact absurd hq hp
    | some p0 => rfl
  · intro hfix
    rw [hstate, ansImg_fix hfix]
    cases hq : q.prompt with
    | none => rfl
    | some p0 =>
      show Question.mk q.type (some p0) q.answers = q
      rw [show some p0 = q.prompt from hq.symm]

/-- C9 witness: the amended theorem applied to a record without image
placeholders — the document-format pass leaves it unchanged. -/
theorem C9_witness :
    (q2latex1 ⟨some "TF".toList, some "sky".toList,
        [("answer".toList, "true".toList)]⟩).1
      = ⟨some "TF".toList, some "sky".toList, [("answer".toList, "true".toList)]⟩ := by
  exact (C9_amended _).2.2.2 (by decide)

set_option maxRecDepth 32768 in
/-- C1 counterexample: a document whose first question is a valid
true/false question and whose second has an unrecognised type.  The run
fails with the unknown-type error, yet the output file exists and already
holds the first question's rendered line — partial output. -/
theorem C1_cex :
    mainBB "-------\ntype: TF\nprompt: A\nanswer: true\n-------\ntype: XX\nprompt: B\n".toList
      = (some ["TF\tA<p></p>\ttrue".toList], some Err.unknownType) := by
  decide

/-- C1 amended, part (c) helper: the import write loop emits exactly the
rendered lines of the maximal successful prefix, and stops at the first
failing question's error. -/
theorem q2bb_lines_model (qs : List Question) :
    q2bb_lines qs = (bbWrittenModel qs, bbErrModel qs) := by
  induction qs with
  | nil => rfl
  | cons q rest ih =>
    unfold q2bb_lines bbWrittenModel bbErrModel
    cases hq : q2bb1 q with
    | error e =>
      simp [List.takeWhile_cons, List.dropWhile_cons, hq, Except.isOk, Except.toBool]
    | ok l =>
      rw [ih]
      unfold bbWrittenModel bbErrModel
      simp [List.takeWhile_cons, List.dropWhile_cons, hq, Except.isOk, Except.toBool,
        Except.toOption]

/-- C1 amended: a failure raised by the pre-flight checker, the parser or
the variant expansion aborts before the output file is opened, so those
errors leave no output at all; but a failure raised while rendering occurs
after `open(out_file, 'w')`, inside the write loop consuming the renderer
generator — the import-format file then holds exactly the rendered lines
of the questions preceding the first failing one, and the document-format
file holds at least the full preamble, so a document does not always
"produce none of its output" on error. -/
theorem C1_amended :
    (∀ text e, txt2py text = .error e →
      mainBB text = (none, some e) ∧ mainLatex text = (none, some e)) ∧
    (∀ text raw e, txt2py text = .ok raw → expandAll raw = .error e →
      mainBB text = (none, some e) ∧ mainLatex text = (none, some e)) ∧
    (∀ text raw qs, txt2py text = .ok raw → expandAll raw = .ok qs →
      mainBB text = (some (bbWrittenModel qs), bbErrModel qs) ∧
      ∃ tl, mainLatex text = (some (latexStartLines ++ enumStartTok :: tl),
        (q2latexDoc qs).2)) := by
  refine ⟨fun text e h => ?_, fun text raw e h1 h2 => ?_, fun text raw qs h1 h2 => ?_⟩
  · simp only [mainBB, mainLatex, h]
    exact ⟨trivial, trivial⟩
  · simp only [mainBB, mainLatex, h1, h2]
    exact ⟨trivial, trivial⟩
  · simp only [mainBB, mainLatex, h1, h2]
    constructor
    · rw [q2bb_lines_model]
    · refine ⟨(q2latexQs qs).1 ++ (if (q2latexQs qs).2 = none then latexEndLines else []),
        ?_⟩
      simp only [q2latexDoc, List.append_assoc, List.cons_append]

set_option maxRecDepth 16384 in
/-- C1 witness: the amended theorem applied to concrete inputs — a
pre-flight tab failure leaves no import output file, and a failing second
question leaves the first question's line as the written file content. -/
theorem C1_witness :
    mainBB "a\tb".toList = (none, some (Err.syntaxErr PCRule.tabUsed)) ∧
    mainBB "-------\ntype: TF\nprompt: C\nanswer: true\n-------\nprompt: D\n".toList
      = (some (bbWrittenModel
          [⟨some "TF".toList, some "C".toList, [("answer".toList, "true".toList)]⟩,
           ⟨none, some "D".toList, []⟩]),
         bbErrModel
          [⟨some "TF".toList, some "C".toList, [("answer".toList, "true".toList)]⟩,
           ⟨none, some "D".toList, []⟩]) := by
  constructor
  · exact (C1_amended.1 "a\tb".toList (Err.syntaxErr PCRule.tabUsed) (by decide)).1
  · exact (C1_amended.2.2
      "-------\ntype: TF\nprompt: C\nanswer: true\n-------\nprompt: D\n".toList
      [⟨some "TF".toList, some "C".toList, [("answer".toList, "true".toList)]⟩,
       ⟨none, some "D".toList, []⟩]
      [⟨some "TF".toList, some "C".toList, [("answer".toList, "true".toList)]⟩,
       ⟨none, some "D".toList, []⟩]
      (by decide) (by decide)).1

/-- Bind on a success, for rewriting the embedded do-notation. -/
theorem exceptBind_ok (a : α) (f : α → Except Err β) :
    (Except.ok a >>= f) = f a := rfl

/-- Bind on a failure. -/
theorem exceptBind_err (e : Err) (f : α → Except Err β) :
    ((Except.error e : Except Err α) >>= f) = Except.error e := rfl

/-- The loop of `produce_variant_questions` produces one substituted copy
per remaining index when every copy's labels check out. -/
theorem produceGo_ok (q : Question) (p : Str) :
    ∀ rem i, (∀ j, i ≤ j → j < i + rem → labelsOk (substQuestion q p j).answers = .ok ()) →
      produceGo q p i rem = .ok ((List.range rem).map (fun k => substQuestion q p (i + k))) := by
  intro rem
  induction rem with
  | zero => intro i _; rfl
  | succ rem ih =>
    intro i h
    have hi : labelsOk (substQuestion q p i).answers = .ok () :=
      h i (Nat.le_refl i) (by omega)
    have hrec := ih (i + 1) (fun j h1 h2 => h j (by omega) (by omega))
    unfold produceGo
    simp only [hi, exceptBind_ok, hrec]
    rw [List.range_succ_eq_map]
    simp only [List.map_cons, List.map_map, Nat.add_zero]
    rw [show ((pure (substQuestion q p i :: List.map (fun k => substQuestion q p (i + 1 + k)) (List.range rem)) : Except Err (List Question)))
        = Except.ok (substQuestion q p i :: List.map (fun k => substQuestion q p (i + 1 + k)) (List.range rem)) from rfl]
    congr 2
    apply List.map_congr_left
    intro k _
    simp only [Function.comp]
    have hnat : i + 1 + k = i + (k + 1) := by omega
    rw [hnat]

/-- The length list computed inside `extract_variants` is `lensOf`. -/
theorem extract_lens (q : Question) (p : Str) :
    (((q.answers ++ [("prompt".toList, p)]).map (fun it =>
        ((findPH it.1).map splitVars, (findPH it.2).map splitVars))).flatMap
          (fun v => v.2.map List.length))
      ++ (((q.answers ++ [("prompt".toList, p)]).map (fun it =>
        ((findPH it.1).map splitVars, (findPH it.2).map splitVars))).flatMap
          (fun v => v.1.map List.length))
      = lensOf q p := by
  unfold lensOf
  congr 1 <;>
  · rw [List.flatMap_map]
    congr 1
    funext it
    rw [List.map_map]
    rfl

/-- `extract_variants` fails with the variants-length error exactly when
the collected length list is empty or not constant. -/
theorem extract_variants_err (q : Question) (p : Str) (hp : q.prompt = some p)
    (h : allEqNe (lensOf q p) = false) :
    extract_variants q = .error Err.variantsLength := by
  unfold extract_variants getKey
  rw [hp]
  simp only [exceptBind_ok]
  rw [extract_lens q p] at *
  cases hl : lensOf q p with
  | nil => simp [hl]
  | cons n ns =>
    rw [hl] at h
    simp only [allEqNe] at h
    simp [h]

set_option maxRecDepth 16384 in
/-- C3 counterexample: a record whose only placeholder lists both have
length 2 (`extract_variants` succeeds with N = 2), yet expansion does not
yield 2 records — it raises the unrecognised-key error because the answer
label `foo` survives substitution unrecognised. -/
theorem C3_cex :
    extract_variants ⟨some "TF".toList, some "p %\x7ba,b\x7d%".toList,
        [("foo".toList, "x".toList)]⟩
      = .ok ([([], []), ([], [["a".toList, "b".toList]])], 2)
    ∧ produce_variant_questions ⟨some "TF".toList, some "p %\x7ba,b\x7d%".toList,
        [("foo".toList, "x".toList)]⟩
      = .error Err.unrecognisedKey := by
  constructor
  · decide
  · decide

/-- C3 amended: for a record whose prompt key is present, (i) when
`extract_variants` succeeds with count N and each of the N substituted
copies passes the label check, expansion yields exactly the N copies
`substQuestion q p 0 .. substQuestion q p (N-1)` — the i-th copy replaces,
per field and left to right, every occurrence of each placeholder string
found in the original field by the i-th element of that placeholder's
split variant list with escaped commas unescaped; (ii) any failure of
`extract_variants` (in particular unequal variant-list lengths) is the
failure of the whole expansion, with no partial result; (iii) when the
collected placeholder list lengths are not all equal to one common value,
expansion raises exactly the variants-length error. -/
theorem C3_amended :
    (∀ (q : Question) v n p, q.prompt = some p → extract_variants q = .ok (v, n) →
      (∀ i, i < n → labelsOk (substQuestion q p i).answers = .ok ()) →
      produce_variant_questions q = .ok ((List.range n).map (substQuestion q p))) ∧
    (∀ (q : Question) e, extract_variants q = .error e →
      produce_variant_questions q = .error e) ∧
    (∀ (q : Question) p, q.prompt = some p → allEqNe (lensOf q p) = false →
      produce_variant_questions q = .error Err.variantsLength) := by
  refine ⟨fun q v n p hp hext hlab => ?_, fun q e hext => ?_, fun q p hp hlen => ?_⟩
  · unfold produce_variant_questions
    rw [hext, exceptBind_ok]
    unfold getKey
    rw [hp]
    rw [exceptBind_ok]
    have := produceGo_ok q p n 0 (fun j _ h2 => hlab j (by omega))
    rw [this]
    congr 1
    apply List.map_congr_left
    intro k _
    rw [Nat.zero_add]
  · unfold produce_variant_questions
    rw [hext, exceptBind_err]
  · unfold produce_variant_questions
    rw [extract_variants_err q p hp hlen, exceptBind_err]

set_option maxRecDepth 16384 in
/-- C3 witness: the amended theorem applied to the spec's own two-field
example — placeholders `%{a,b}%` in the prompt and `%{x,y}%` in an answer
value expand to exactly 2 records with matched substitutions. -/
theorem C3_witness :
    produce_variant_questions ⟨some "TF".toList, some "p %\x7ba,b\x7d%".toList,
        [("answer".toList, "%\x7bx,y\x7d%".toList)]⟩
      = .ok [⟨some "TF".toList, some "p a".toList, [("answer".toList, "x".toList)]⟩,
             ⟨some "TF".toList, some "p b".toList, [("answer".toList, "y".toList)]⟩] := by
  have h := C3_amended.1
    ⟨some "TF".toList, some "p %\x7ba,b\x7d%".toList,
      [("answer".toList, "%\x7bx,y\x7d%".toList)]⟩
    [([], [["x".toList, "y".toList]]), ([], [["a".toList, "b".toList]])] 2
    "p %\x7ba,b\x7d%".toList rfl (by decide) (by decide)
  exact h.trans (by decide)

/-- Records without the `%{` marker pass through expansion unchanged. -/
theorem expandAll_id : ∀ (qs : List Question), (∀ q ∈ qs, hasMarker q = false) →
    expandAll qs = .ok qs := by
  intro qs
  induction qs with
  | nil => intro _; rfl
  | cons q rest ih =>
    intro h
    unfold expandAll
    rw [h q (by simp)]
    simp only [Bool.false_eq_true, if_false]
    rw [ih (fun x hx => h x (by simp [hx])), exceptBind_ok]
    rfl

/-- The parser creates exactly one record per line starting with seven
dashes: comment/blank lines and non-delimiter lines never change the
record count, and a field line rewrites the last record in place. -/
theorem parseLines_len (lines : List Str) :
    ∀ (acc res : List Question), parseLines lines acc = .ok res →
      res.length = acc.length
        + lines.countP (fun l => startsWithS "-------".toList l) := by
  induction lines with
  | nil =>
    intro acc res h
    cases h
    simp
  | cons line rest ih =>
    intro acc res h
    unfold parseLines at h
    by_cases hskip : line = [] ∨ line.head? = some '#'
    · rw [if_pos hskip] at h
      have hnd : startsWithS ['-', '-', '-', '-', '-', '-', '-'] line = false := by
        rcases hskip with h1 | h1
        · subst h1; rfl
        · cases line with
          | nil => rfl
          | cons c cs =>
            simp only [List.head?_cons, Option.some.injEq] at h1
            subst h1
            rfl
      rw [ih acc res h]
      simp [List.countP_cons, hnd]
    · rw [if_neg hskip] at h
      by_cases hd : startsWithS "-------".toList line = true
      · rw [if_pos hd] at h
        have hd' : startsWithS ['-', '-', '-', '-', '-', '-', '-'] line = true := by
          simpa using hd
        rw [ih _ res h]
        simp [List.countP_cons, hd']
        omega
      · rw [if_neg hd] at h
        have hd' : startsWithS ['-', '-', '-', '-', '-', '-', '-'] line = false := by
          simpa using hd
        by_cases hc : containsCh ':' line = true
        · rw [if_pos hc] at h
          cases hl : acc.getLast? with
          | none => rw [hl] at h; cases h
          | some lastq =>
            rw [hl] at h
            dsimp only at h
            rw [ih _ res h]
            have hne : acc ≠ [] := by
              intro he
              subst he
              cases hl
            have hlen : 0 < acc.length := List.length_pos.mpr hne
            rw [List.length_append, List.length_dropLast]
            simp [List.countP_cons, hd']
            omega
        · rw [if_neg hc] at h
          rw [ih acc res h]
          simp [List.countP_cons, hd']

set_option maxRecDepth 16384 in
/-- C4 counterexample: one delimiter line (K = 1) and a record none of
whose fields contains a complete `%{...}%` placeholder — but the prompt
contains a bare `%{`, so `main`'s `re.search('%{', str(question))` routes
it into `produce_variant_questions`, which finds no placeholder lists and
raises the variants-length error instead of yielding 1 item. -/
theorem C4_cex :
    txt2py "-------\ntype: TF\nprompt: 50%\x7b off\nanswer: true\n".toList
      = .ok [⟨some "TF".toList, some "50%\x7b off".toList,
             [("answer".toList, "true".toList)]⟩]
    ∧ templatedRecord ⟨some "TF".toList, some "50%\x7b off".toList,
        [("answer".toList, "true".toList)]⟩ = false
    ∧ (splitLinesPy "-------\ntype: TF\nprompt: 50%\x7b off\nanswer: true\n".toList).countP
        (fun l => startsWithS "-------".toList l) = 1
    ∧ mainBB "-------\ntype: TF\nprompt: 50%\x7b off\nanswer: true\n".toList
      = (none, some Err.variantsLength) := by
  refine ⟨by decide, by decide, by decide, by decide⟩

/-- C4 amended: for any input text that parses successfully, is left
unchanged by the normalisation rewrites, and none of whose parsed records
contains the marker `%{` in any field, expansion is the identity and
yields exactly K items, where K is the number of lines starting with seven
dashes. -/
theorem C4_amended (text : Str) (qs : List Question)
    (h1 : txt2py text = .ok qs) (h2 : normalizeText text = text)
    (h3 : ∀ q ∈ qs, hasMarker q = false) :
    expandAll qs = .ok qs ∧
    qs.length = (splitLinesPy text).countP (fun l => startsWithS "-------".toList l) := by
  refine ⟨expandAll_id qs h3, ?_⟩
  unfold txt2py at h1
  cases hpc : parse_checker text with
  | some r => rw [hpc] at h1; cases h1
  | none =>
    rw [hpc, h2] at h1
    have := parseLines_len (splitLinesPy text) [] qs h1
    simpa using this

set_option maxRecDepth 16384 in
/-- C4 witness: the amended theorem applied to a concrete two-question
marker-free document — expansion is the identity and the count is 2. -/
theorem C4_witness :
    expandAll
      [⟨some "TF".toList, some "A".toList, [("answer".toList, "true".toList)]⟩,
       ⟨some "ESS".toList, some "B".toList, []⟩]
      = .ok
      [⟨some "TF".toList, some "A".toList, [("answer".toList, "true".toList)]⟩,
       ⟨some "ESS".toList, some "B".toList, []⟩]
    ∧ ([⟨some "TF".toList, some "A".toList, [("answer".toList, "true".toList)]⟩,
        (⟨some "ESS".toList, some "B".toList, []⟩ : Question)] : List Question).length
      = (splitLinesPy "-------\ntype: TF\nprompt: A\nanswer: true\n-------\ntype: ESS\nprompt: B\n".toList).countP
          (fun l => startsWithS "-------".toList l) :=
  C4_amended "-------\ntype: TF\nprompt: A\nanswer: true\n-------\ntype: ESS\nprompt: B\n".toList
    [⟨some "TF".toList, some "A".toList, [("answer".toList, "true".toList)]⟩,
     ⟨some "ESS".toList, some "B".toList, []⟩]
    (by decide) (by decide) (by decide)

/-- Destructor for a successful bind. -/
theorem bind_eq_ok {x : Except Err α} {f : α → Except Err β} {b : β}
    (h : (x >>= f) = .ok b) : ∃ a, x = .ok a ∧ f a = .ok b := by
  cases x with
  | error e => rw [exceptBind_err] at h; cases h
  | ok a => rw [exceptBind_ok] at h; exact ⟨a, rfl, h⟩

/-- `Question.__init__` stores exactly the record's type string. -/
theorem questionInit_t {q : Question} {hq : HQ} (h : questionInit q = .ok hq) :
    getKey q.type = .ok hq.t := by
  unfold questionInit at h
  obtain ⟨t, ht, h⟩ := bind_eq_ok h
  obtain ⟨p, hp, h⟩ := bind_eq_ok h
  cases h
  exact ht

/-- Every handler that succeeds was built on `Question.__init__`, so its
state's `t` field is the record's type string; the lemma extracts this per
constructor.  The `NumQ`/`JSQ`/`FibQ` states expose it through `.hq`. -/
theorem bbOf_head : ∀ (k : QType) (q : Question) (items : List Str) (t : Str),
    getKey q.type = .ok t → bbOf k q = .ok items → ∃ rest, items = t :: rest := by
  have base : ∀ {q : Question} {hq : HQ} {t}, getKey q.type = .ok t →
      questionInit q = .ok hq → hq.t = t := by
    intro q hq t ht h
    have := questionInit_t h
    rw [ht] at this
    cases this
    rfl
  intro k q items t ht h
  cases k with
  | MC =>
    obtain ⟨hq, hinit, hbb⟩ := bind_eq_ok h
    unfold MC_init at hinit
    obtain ⟨hq0, hqi, hif⟩ := bind_eq_ok hinit
    have hqt : hq0.t = t := base ht hqi
    split at hif
    · cases hif
    · cases hif
      unfold MC_bb at hbb
      obtain ⟨its, _, hpure⟩ := bind_eq_ok hbb
      cases hpure
      exact ⟨_, by rw [hqt]⟩
  | MA =>
    obtain ⟨hq, hinit, hbb⟩ := bind_eq_ok h
    have hqt : hq.t = t := base ht hinit
    unfold MC_bb at hbb
    obtain ⟨its, _, hpure⟩ := bind_eq_ok hbb
    cases hpure
    exact ⟨_, by rw [hqt]⟩
  | TF =>
    obtain ⟨hq, hinit, hbb⟩ := bind_eq_ok h
    unfold TF_init at hinit
    obtain ⟨hq0, hqi, hif⟩ := bind_eq_ok hinit
    have hqt : hq0.t = t := base ht hqi
    have hq0eq : hq = hq0 := by
      split at hif
      · cases hif
      · split at hif
        · cases hif
        · split at hif
          · cases hif
          · split at hif
            · cases hif
            · cases hif; rfl
    subst hq0eq
    unfold TF_bb at hbb
    split at hbb
    · cases hbb
    · cases hbb
      exact ⟨_, by rw [hqt]⟩
  | ESS =>
    obtain ⟨hq, hinit, hbb⟩ := bind_eq_ok h
    have hqt : hq.t = t := base ht hinit
    unfold ESS_bb at hbb
    split at hbb
    · cases hbb
    · split at hbb
      · cases hbb
      · cases hbb
        exact ⟨_, by rw [hqt]⟩
  | SR =>
    obtain ⟨hq, hinit, hbb⟩ := bind_eq_ok h
    have hqt : hq.t = t := base ht hinit
    unfold ESS_bb at hbb
    split at hbb
    · cases hbb
    · split at hbb
      · cases hbb
      · cases hbb
        exact ⟨_, by rw [hqt]⟩
  | ORD =>
    obtain ⟨hq, hinit, hbb⟩ := bind_eq_ok h
    unfold ORD_init at hinit
    obtain ⟨hq0, hqi, hif⟩ := bind_eq_ok hinit
    have hqt : hq0.t = t := base ht hqi
    have hq0eq : hq = hq0 := by
      split at hif
      · cases hif
      · split at hif
        · cases hif
        · cases hif; rfl
    subst hq0eq
    unfold ORD_bb at hbb
    cases hbb
    exact ⟨_, by rw [hqt]⟩
  | MAT =>
    obtain ⟨hq, hinit, hbb⟩ := bind_eq_ok h
    unfold MAT_init at hinit
    obtain ⟨hq0, hqi, hif⟩ := bind_eq_ok hinit
    have hqt : hq0.t = t := base ht hqi
    have hq0eq : hq = hq0 := by
      split at hif
      · cases hif
      · split at hif
        · cases hif
        · cases hif; rfl
    subst hq0eq
    unfold MAT_bb at hbb
    cases hbb
    exact ⟨_, by rw [hqt]⟩
  | FIL =>
    obtain ⟨hq, hinit, hbb⟩ := bind_eq_ok h
    have hqt : hq.t = t := base ht hinit
    unfold FIL_bb at hbb
    split at hbb
    · cases hbb
    · cases hbb
      exact ⟨_, by rw [hqt]⟩
  | OP =>
    obtain ⟨hq, hinit, hbb⟩ := bind_eq_ok h
    have hqt : hq.t = t := base ht hinit
    unfold FIL_bb at hbb
    split at hbb
    · cases hbb
    · cases hbb
      exact ⟨_, by rw [hqt]⟩
  | NUM =>
    obtain ⟨nq, hinit, hbb⟩ := bind_eq_ok h
    unfold NUM_init at hinit
    obtain ⟨hq0, hqi, hrest⟩ := bind_eq_ok hinit
    have hqt : hq0.t = t := base ht hqi
    obtain ⟨at_, _, hif⟩ := bind_eq_ok hrest
    have hnq : nq.hq = hq0 := by
      split at hif
      · cases hif
      · cases hif; rfl
    unfold NUM_bb at hbb
    split at hbb
    · cases hbb
      exact ⟨_, by rw [hnq, hqt]⟩
    · cases hbb
      exact ⟨_, by rw [hnq, hqt]⟩
  | JS =>
    obtain ⟨jq, hinit, hbb⟩ := bind_eq_ok h
    unfold JS_init at hinit
    obtain ⟨hq0, hqi, hrest⟩ := bind_eq_ok hinit
    have hqt : hq0.t = t := base ht hqi
    have hjq : jq.hq = hq0 := by
      split at hrest
      · cases hrest
      · obtain ⟨mv, _, hif⟩ := bind_eq_ok hrest
        split at hif
        · cases hif
        · split at hif
          · cases hif
          · split at hif
            · cases hif
            · cases hif; rfl
    unfold JS_bb at hbb
    cases hbb
    exact ⟨_, by rw [hjq, hqt]⟩
  | FIB =>
    obtain ⟨fq, hinit, hbb⟩ := bind_eq_ok h
    unfold FIB_init at hinit
    obtain ⟨hq0, hqi, hrest⟩ := bind_eq_ok hinit
    have hfq : fq.hq = hq0 := by
      split at hrest
      · cases hrest
      · obtain ⟨maps, _, hpure⟩ := bind_eq_ok hrest
        cases hpure
        rfl
    have hqt : hq0.t = t := base ht hqi
    unfold FIB_bb at hbb
    cases hbb
    exact ⟨_, by rw [hfq, hqt]⟩

/-- A recognised type string is one of the twelve literals. -/
theorem parseQType_mem {t : Str} {k : QType} (h : parseQType t = some k) :
    t ∈ qTypeStrs := by
  unfold parseQType at h
  by_cases h1 : t = "MC".toList
  · rw [h1]; decide
  · rw [if_neg h1] at h
    by_cases h2 : t = "MA".toList
    · rw [h2]; decide
    · rw [if_neg h2] at h
      by_cases h3 : t = "TF".toList
      · rw [h3]; decide
      · rw [if_neg h3] at h
        by_cases h4 : t = "ESS".toList
        · rw [h4]; decide
        · rw [if_neg h4] at h
          by_cases h5 : t = "ORD".toList
          · rw [h5]; decide
          · rw [if_neg h5] at h
            by_cases h6 : t = "MAT".toList
            · rw [h6]; decide
            · rw [if_neg h6] at h
              by_cases h7 : t = "FIL".toList
              · rw [h7]; decide
              · rw [if_neg h7] at h
                by_cases h8 : t = "NUM".toList
                · rw [h8]; decide
                · rw [if_neg h8] at h
                  by_cases h9 : t = "SR".toList
                  · rw [h9]; decide
                  · rw [if_neg h9] at h
                    by_cases h10 : t = "OP".toList
                    · rw [h10]; decide
                    · rw [if_neg h10] at h
                      by_cases h11 : t = "JUMBLED_SENTENCE".toList
                      · rw [h11]; decide
                      · rw [if_neg h11] at h
                        by_cases h12 : t = "FIB_PLUS".toList
                        · rw [h12]; decide
                        · rw [if_neg h12] at h
                          cases h

/-- Recognised type strings contain no image placeholder and are not the
string `notes`. -/
theorem qTypeStr_stable {t : Str} (h : t ∈ qTypeStrs) :
    imageSub t = t ∧ t ≠ notesStr := by
  unfold qTypeStrs at h
  simp only [List.mem_cons, List.not_mem_nil, or_false] at h
  rcases h with h | h | h | h | h | h | h | h | h | h | h | h <;>
    (subst h; exact ⟨by decide, by decide⟩)

/-- The items produced by `q2bb_items` start with the (unchanged) type
string, which is a recognised type. -/
theorem q2bb_items_head {q : Question} {items : List Str}
    (h : q2bb_items q = .ok items) :
    ∃ t rest, t ∈ qTypeStrs ∧ items = t :: rest := by
  unfold q2bb_items at h
  obtain ⟨t, ht, h⟩ := bind_eq_ok h
  cases hk : parseQType t with
  | none => rw [hk] at h; cases h
  | some k =>
    rw [hk] at h
    obtain ⟨its, hbb, h⟩ := bind_eq_ok h
    obtain ⟨r, hr⟩ := bbOf_head k q its t ht hbb
    subst hr
    obtain ⟨its2, hsp, h⟩ := bind_eq_ok h
    have hmem := parseQType_mem hk
    cases r with
    | nil =>
      unfold addSpacer at hsp
      cases hsp
    | cons b rest2 =>
      unfold addSpacer at hsp
      cases hsp
      cases h
      exact ⟨t, _, hmem, by rw [List.map_cons, (qTypeStr_stable hmem).1]⟩

/-- C10: in the import renderer, whenever the projected item list contains
an element equal to the string `notes`, its first occurrence sits at a
positive index (the head is always the type tag, never `notes`), and the
removal step deletes exactly that element and the one directly before it —
later occurrences stay — after which the items are tab-joined; this holds
whatever produced the `notes` element, a notes answer entry or an answer
value that happens to equal `notes`. -/
theorem C10_notes_removal (q : Question) (items : List Str)
    (h : q2bb_items q = .ok items) (hn : items.contains notesStr = true) :
    0 < firstIdx notesStr items
    ∧ removeNotes items
      = items.take (firstIdx notesStr items - 1) ++ items.drop (firstIdx notesStr items + 1)
    ∧ q2bb1 q = .ok (replaceAll "$$".toList "~~".toList
        (tabJoin (items.take (firstIdx notesStr items - 1)
          ++ items.drop (firstIdx notesStr items + 1)))) := by
  obtain ⟨t, rest, hmem, hitems⟩ := q2bb_items_head h
  have hne : t ≠ notesStr := (qTypeStr_stable hmem).2
  have hpos : 0 < firstIdx notesStr items := by
    rw [hitems]
    unfold firstIdx
    rw [if_neg hne]
    omega
  have hrem : removeNotes items
      = items.take (firstIdx notesStr items - 1) ++ items.drop (firstIdx notesStr items + 1) := by
    unfold removeNotes
    rw [if_pos hn, if_pos (by omega : 1 ≤ firstIdx notesStr items)]
  refine ⟨hpos, hrem, ?_⟩
  unfold q2bb1
  rw [h, exceptBind_ok, hrem]
  rfl

set_option maxRecDepth 16384 in
/-- C10 witness: the theorem applied to a choice question whose third
answer is a notes entry — the items hold `... value, notes ...`, the first
`notes` occurrence is at index 7, and the written line drops the note's
value–label pair. -/
theorem C10_witness :
    q2bb1 ⟨some "MC".toList, some "p".toList,
        [("correct".toList, "a".toList), ("incorrect".toList, "b".toList),
         ("notes".toList, "remember".toList)]⟩
      = .ok "MC\tp<p></p>\ta\tcorrect\tb\tincorrect".toList := by
  have h := (C10_notes_removal
    ⟨some "MC".toList, some "p".toList,
      [("correct".toList, "a".toList), ("incorrect".toList, "b".toList),
       ("notes".toList, "remember".toList)]⟩
    ["MC".toList, "p<p></p>".toList, "a".toList, "correct".toList,
     "b".toList, "incorrect".toList, "remember".toList, "notes".toList]
    (by decide) (by decide)).2.2
  exact h.trans (by decide)

/-- A prefix is recovered by `drop`. -/
theorem startsWith_drop : ∀ (p l : Str), startsWithS p l = true → l = p ++ l.drop p.length := by
  intro p
  induction p with
  | nil => intro l _; rfl
  | cons c cs ih =>
    intro l h
    cases l with
    | nil => cases h
    | cons d ds =>
      unfold startsWithS at h
      simp only [Bool.and_eq_true, decide_eq_true_eq] at h
      obtain ⟨h1, h2⟩ := h
      subst h1
      simpa using ih ds h2

/-- `startsWithS p (p ++ x)` always holds. -/
theorem startsWith_append_self : ∀ (p x : Str), startsWithS p (p ++ x) = true := by
  intro p
  induction p with
  | nil => intro x; rfl
  | cons c cs ih =>
    intro x
    unfold startsWithS
    simp [ih]

/-- Plain characters are unescaped by the `repr`. -/
theorem plainChar_esc {c : Char} (h : plainChar c = true) : pyEscCh '\'' c = [c] := by
  unfold plainChar at h
  simp only [Bool.and_eq_true, decide_eq_true_eq] at h
  obtain ⟨h1, h2, h3, h4⟩ := h
  unfold pyEscCh
  rw [if_neg h1, if_neg h2, if_neg, if_neg, if_neg, if_neg]
  · intro hc
    rcases hc with hc | hc <;> omega
  · intro hc; rw [hc] at h3; exact absurd h3 (by decide)
  · intro hc; rw [hc] at h3; exact absurd h3 (by decide)
  · intro hc; rw [hc] at h3; exact absurd h3 (by decide)

/-- The `repr` of a quote-free string of unescaped characters is the
string between single quotes. -/
theorem pyReprStr_plain {l : Str} (hq : containsCh '\'' l = false)
    (h : ∀ c ∈ l, pyEscCh '\'' c = [c]) :
    pyReprStr l = '\'' :: l ++ ['\''] := by
  have hfm : ∀ (m : Str), (∀ c ∈ m, pyEscCh '\'' c = [c]) → m.flatMap (pyEscCh '\'') = m := by
    intro m
    induction m with
    | nil => intro _; rfl
    | cons c cs ih =>
      intro hm
      rw [List.flatMap_cons, hm c (by simp), ih (fun d hd => hm d (by simp [hd]))]
      rfl
  unfold pyReprStr
  rw [if_neg (by simp [hq])]
  show '\'' :: l.flatMap (pyEscCh '\'') ++ ['\''] = '\'' :: l ++ ['\'']
  rw [hfm l h]

/-- A scan step that cannot match steps over one character. -/
theorem countMCGo_step {c : Char} {cs : Str}
    (h : (c = 'i' ∨ c = 'n') ∨ startsWithS "correct".toList cs = false) :
    countMCGo (c :: cs) 0 = countMCGo cs 0 := by
  have heq : countMCGo (c :: cs) 0
      = if (c ≠ 'i' ∧ c ≠ 'n') ∧ startsWithS "correct".toList cs = true then
          1 + countMCGo cs 7
        else countMCGo cs 0 := rfl
  rw [heq, if_neg]
  intro hc
  obtain ⟨⟨hi, hn⟩, hs⟩ := hc
  rcases h with h | h
  · rcases h with h | h
    · exact hi h
    · exact hn h
  · rw [h] at hs
    cases hs

/-- The scanner passes over exactly `a.length` skipped characters. -/
theorem countMCGo_skip : ∀ (a x : Str), countMCGo (a ++ x) a.length = countMCGo x 0 := by
  intro a
  induction a with
  | nil => intro x; rfl
  | cons c a' ih =>
    intro x
    have heq : countMCGo (c :: (a' ++ x)) (a'.length + 1)
        = countMCGo (a' ++ x) a'.length := rfl
    simpa [heq] using ih x

/-- A matching step: a non-`i`/`n` character directly followed by the
literal `correct` counts one and skips the stem. -/
theorem countMCGo_match {c : Char} {x : Str} (h1 : c ≠ 'i') (h2 : c ≠ 'n') :
    countMCGo (c :: ("correct".toList ++ x)) 0 = 1 + countMCGo x 0 := by
  have heq : countMCGo (c :: ("correct".toList ++ x)) 0
      = if (c ≠ 'i' ∧ c ≠ 'n')
            ∧ startsWithS "correct".toList ("correct".toList ++ x) = true then
          1 + countMCGo ("correct".toList ++ x) 7
        else countMCGo ("correct".toList ++ x) 0 := rfl
  rw [heq, if_pos ⟨⟨h1, h2⟩, startsWith_append_self _ _⟩]
  have := countMCGo_skip "correct".toList x
  simpa using this

/-- Letter-free text never matches. -/
theorem countMCGo_noLetter : ∀ (s : Str), (∀ c ∈ s, isAlpha c = false) →
    countMCGo s 0 = 0 := by
  intro s
  induction s with
  | nil => intro _; rfl
  | cons c cs ih =>
    intro h
    rw [countMCGo_step, ih (fun d hd => h d (by simp [hd]))]
    right
    cases cs with
    | nil => rfl
    | cons d ds =>
      have hd : isAlpha d = false := h d (by simp)
      have hne : d ≠ 'c' := by
        intro he
        rw [he] at hd
        cases hd
      simp [startsWithS, Ne.symm hne]

/-- A letter-free prefix is scanned through without effect, provided the
continuation does not begin with `c`. -/
theorem countMCGo_skipNeutral : ∀ (u X : Str), (∀ c ∈ u, isAlpha c = false) →
    (X = [] ∨ ∃ x xs, X = x :: xs ∧ x ≠ 'c') →
    countMCGo (u ++ X) 0 = countMCGo X 0 := by
  intro u
  induction u with
  | nil => intro X _ _; rfl
  | cons c u' ih =>
    intro X h hX
    rw [List.cons_append, countMCGo_step, ih X (fun d hd => h d (by simp [hd])) hX]
    right
    cases hu : u' with
    | cons d ds =>
      have hd : isAlpha d = false := h d (by simp [hu])
      have hne : d ≠ 'c' := by
        intro he; rw [he] at hd; cases hd
      simp [startsWithS, Ne.symm hne]
    | nil =>
      simp only [List.nil_append]
      rcases hX with hX | ⟨x, xs, hX, hx⟩
      · subst hX; rfl
      · subst hX
        simp [startsWithS, Ne.symm hx]

/-- Scanning through the stem `correct` with nothing to match afterwards
(the continuation does not start with a letter). -/
theorem countMCGo_correct_through (X : Str)
    (hX : X = [] ∨ ∃ x xs, X = x :: xs ∧ isAlpha x = false) :
    countMCGo ("correct".toList ++ X) 0 = countMCGo X 0 := by
  have hlast : startsWithS "correct".toList X = false := by
    rcases hX with hX | ⟨x, xs, hX, hx⟩
    · subst hX; rfl
    · subst hX
      have hne : x ≠ 'c' := by
        intro he; rw [he] at hx; cases hx
      simp [startsWithS, Ne.symm hne]
  show countMCGo ('c' :: 'o' :: 'r' :: 'r' :: 'e' :: 'c' :: 't' :: X) 0 = countMCGo X 0
  rw [countMCGo_step (Or.inr (by simp [startsWithS])),
    countMCGo_step (Or.inr (by simp [startsWithS])),
    countMCGo_step (Or.inr (by simp [startsWithS])),
    countMCGo_step (Or.inr (by simp [startsWithS])),
    countMCGo_step (Or.inr (by simp [startsWithS])),
    countMCGo_step (Or.inr (by simp [startsWithS])),
    countMCGo_step (Or.inr hlast)]

/-- Destructor for a good label. -/
theorem goodLabel_cases {l : Str} (h : goodLabel l = true) :
    (∃ suf, l = "correct".toList ++ suf ∧ goodSuffix suf = true)
    ∨ (∃ suf, l = "incorrect".toList ++ suf ∧ goodSuffix suf = true) := by
  unfold goodLabel at h
  rw [decide_eq_true_eq] at h
  rcases h with ⟨h1, h2⟩ | ⟨h1, h2⟩
  · exact Or.inl ⟨l.drop 7, by simpa using startsWith_drop _ _ h1, h2⟩
  · exact Or.inr ⟨l.drop 9, by simpa using startsWith_drop _ _ h1, h2⟩

/-- Good suffixes are letter-free. -/
theorem goodSuffix_noLetter {s : Str} (h : goodSuffix s = true) :
    ∀ c ∈ s, isAlpha c = false := by
  unfold goodSuffix at h
  rw [List.all_eq_true] at h
  intro c hc
  have := h c hc
  simp only [Bool.and_eq_true, decide_eq_true_eq] at this
  exact this.1

/-- Good suffixes contain plain characters only. -/
theorem goodSuffix_plain {s : Str} (h : goodSuffix s = true) :
    ∀ c ∈ s, plainChar c = true := by
  unfold goodSuffix at h
  rw [List.all_eq_true] at h
  intro c hc
  have := h c hc
  simp only [Bool.and_eq_true, decide_eq_true_eq] at this
  exact this.2

/-- A string avoiding a character does not contain it. -/
theorem containsCh_false {c : Char} : ∀ {s : Str}, (∀ d ∈ s, d ≠ c) →
    containsCh c s = false := by
  intro s
  induction s with
  | nil => intro _; rfl
  | cons d ds ih =>
    intro h
    unfold containsCh
    have hd : d ≠ c := h d (by simp)
    rw [decide_eq_false]
    intro hor
    rcases hor with he | he
    · exact hd he
    · rw [ih (fun x hx => h x (by simp [hx]))] at he
      cases he

/-- All characters of a good label are plain. -/
theorem goodLabel_plain {l : Str} (h : goodLabel l = true) :
    ∀ c ∈ l, plainChar c = true := by
  rcases goodLabel_cases h with ⟨suf, hl, hs⟩ | ⟨suf, hl, hs⟩ <;>
    (subst hl
     intro c hc
     rcases List.mem_append.mp hc with hc | hc
     · exact (by decide : ∀ d ∈ ("correct".toList ++ "incorrect".toList),
         plainChar d = true) c (by simp_all)
     · exact goodSuffix_plain hs c hc)

/-- The `repr` of a good label is the label between single quotes. -/
theorem goodLabel_repr {l : Str} (h : goodLabel l = true) :
    pyReprStr l = '\'' :: l ++ ['\''] := by
  have hplain := goodLabel_plain h
  apply pyReprStr_plain
  · apply containsCh_false
    intro d hd
    have := hplain d hd
    unfold plainChar at this
    simp only [Bool.and_eq_true, decide_eq_true_eq] at this
    exact this.2.1
  · intro c hc
    exact plainChar_esc (hplain c hc)


/-- The labels-list `repr` of good labels is the bracketed pieces form. -/
theorem piecesStr_repr : ∀ (ls : List Str), (∀ l ∈ ls, goodLabel l = true) →
    pyReprStrList ls = '[' :: piecesStr ls := by
  have key : ∀ (ls : List Str), (∀ l ∈ ls, goodLabel l = true) →
      commaJoin (ls.map pyReprStr) ++ [']'] = piecesStr ls := by
    intro ls
    induction ls with
    | nil => intro _; rfl
    | cons l rest ih =>
      intro h
      cases rest with
      | nil =>
        show (pyReprStr l) ++ [']']
            = '\'' :: (l ++ ('\'' :: (([] : Str) ++ piecesStr [])))
        rw [goodLabel_repr (h l (by simp))]
        simp [piecesStr]
      | cons r rest2 =>
        have ihr := ih (fun x hx => h x (by simp [hx]))
        show (pyReprStr l ++ ',' :: ' ' :: commaJoin ((r :: rest2).map pyReprStr)) ++ [']']
            = '\'' :: (l ++ ('\'' :: ([',', ' '] ++ piecesStr (r :: rest2))))
        rw [goodLabel_repr (h l (by simp)), ← ihr]
        simp
  intro ls h
  unfold pyReprStrList
  rw [show '[' :: commaJoin (ls.map pyReprStr) ++ [']']
      = '[' :: (commaJoin (ls.map pyReprStr) ++ [']']) from rfl]
  rw [key ls h]

/-- The central count: scanning the labels-list body after any letter-free
prefix counts exactly the `correct`-stem labels. -/
theorem countMC_pieces : ∀ (ls : List Str), (∀ l ∈ ls, goodLabel l = true) →
    ∀ (u : Str), (∀ c ∈ u, isAlpha c = false) →
    countMCGo (u ++ piecesStr ls) 0
      = ls.countP (fun l => startsWithS "correct".toList l) := by
  intro ls
  induction ls with
  | nil =>
    intro _ u hu
    rw [countMCGo_noLetter]
    · simp
    · intro c hc
      rcases List.mem_append.mp hc with hc | hc
      · exact hu c hc
      · unfold piecesStr at hc
        simp only [List.mem_singleton] at hc
        subst hc
        decide
  | cons l rest ih =>
    intro h u hu
    have hl := h l (by simp)
    have hrest : ∀ x ∈ rest, goodLabel x = true :=
      fun x hx => h x (List.mem_cons_of_mem _ hx)
    have hsepn : ∀ c ∈ ('\'' :: (if rest.isEmpty then ([] : Str) else [',', ' '])),
        isAlpha c = false := by
      intro c hc
      rcases List.mem_cons.mp hc with rfl | hc
      · decide
      · split at hc
        · cases hc
        · simp only [List.mem_cons, List.not_mem_nil, or_false] at hc
          rcases hc with rfl | rfl <;> decide
    have hquote : ('\'' : Char) ≠ 'c' := by decide
    rcases goodLabel_cases hl with ⟨suf, hldef, hsuf⟩ | ⟨suf, hldef, hsuf⟩
    · subst hldef
      show countMCGo (u ++ ('\'' :: (("correct".toList ++ suf)
        ++ ('\'' :: ((if rest.isEmpty then [] else [',', ' ']) ++ piecesStr rest))))) 0
        = _
      rw [countMCGo_skipNeutral u _ hu (Or.inr ⟨'\'', _, rfl, hquote⟩)]
      show countMCGo ('\'' :: ("correct".toList ++ (suf
        ++ ('\'' :: ((if rest.isEmpty then [] else [',', ' ']) ++ piecesStr rest))))) 0
        = _
      rw [countMCGo_match (by decide) (by decide)]
      rw [countMCGo_skipNeutral suf _ (goodSuffix_noLetter hsuf)
        (Or.inr ⟨'\'', _, rfl, hquote⟩)]
      show 1 + countMCGo (('\'' :: (if rest.isEmpty then [] else [',', ' ']))
        ++ piecesStr rest) 0 = _
      rw [ih hrest _ hsepn, List.countP_cons]
      have hpred : startsWithS ['c', 'o', 'r', 'r', 'e', 'c', 't']
          ('c' :: 'o' :: 'r' :: 'r' :: 'e' :: 'c' :: 't' :: suf) = true := by
        simpa using startsWith_append_self "correct".toList suf
      simp [hpred]
      omega
    · subst hldef
      show countMCGo (u ++ ('\'' :: ('i' :: 'n' :: ("correct".toList ++ (suf
        ++ ('\'' :: ((if rest.isEmpty then [] else [',', ' ']) ++ piecesStr rest))))))) 0
        = _
      rw [countMCGo_skipNeutral u _ hu (Or.inr ⟨'\'', _, rfl, hquote⟩)]
      rw [countMCGo_step (Or.inr (by simp [startsWithS]))]
      rw [countMCGo_step (Or.inl (Or.inl rfl))]
      rw [countMCGo_step (Or.inl (Or.inr rfl))]
      rw [countMCGo_correct_through _ ?hX]
      case hX =>
        cases hs : suf with
        | nil =>
          right
          exact ⟨'\'', _, rfl, by decide⟩
        | cons s0 ss =>
          right
          refine ⟨s0, _, rfl, ?_⟩
          exact goodSuffix_noLetter hsuf s0 (by simp [hs])
      rw [countMCGo_skipNeutral suf _ (goodSuffix_noLetter hsuf)
        (Or.inr ⟨'\'', _, rfl, hquote⟩)]
      show countMCGo (('\'' :: (if rest.isEmpty then [] else [',', ' ']))
        ++ piecesStr rest) 0 = _
      rw [ih hrest _ hsepn, List.countP_cons]
      have hpred : startsWithS ['c', 'o', 'r', 'r', 'e', 'c', 't']
          ('i' :: 'n' :: 'c' :: 'o' :: 'r' :: 'r' :: 'e' :: 'c' :: 't' :: suf) = false := by
        simp [startsWithS]
      simp [hpred]

/-- For good labels the `[^in]correct` count over the `repr` equals the
number of `correct`-stem labels. -/
theorem countMC_good (ls : List Str) (h : ∀ l ∈ ls, goodLabel l = true) :
    countMC (pyReprStrList ls)
      = ls.countP (fun l => startsWithS "correct".toList l) := by
  unfold countMC
  rw [piecesStr_repr ls h]
  show countMCGo (['['] ++ piecesStr ls) 0 = _
  exact countMC_pieces ls h ['['] (by decide)

/-- C6 counterexample: the label `xcorrect` is not classified "correct" by
the claim (stripping a parenthesised suffix never yields `correct`), so
the claim demands failure with zero correct answers — yet `MC` construction
succeeds, because the `[^in]correct` regex finds a match inside
`'xcorrect'`. -/
theorem C6_cex :
    MC_init ⟨some "MC".toList, some "p".toList, [("xcorrect".toList, "a".toList)]⟩
      = .ok ⟨"MC".toList, "p".toList, [("xcorrect".toList, "a".toList)]⟩
    ∧ ([("xcorrect".toList, "a".toList)].map (fun a => a.1)).countP specCorrectLabel
      = 0 := by
  constructor
  · decide
  · decide

/-- C6 amended: for a record whose labels are all `correct` or `incorrect`
followed by a letter-free plain suffix (the partial-credit shapes),
single-correct construction succeeds exactly when the number of labels
with stem `correct` is one — with zero or two or more such labels it
raises the only-one-correct error. -/
theorem C6_amended (q : Question) (t p : Str) (h1 : q.type = some t)
    (h2 : q.prompt = some p)
    (h3 : ∀ l ∈ q.answers.map (fun a => a.1), goodLabel l = true) :
    MC_init q = .ok ⟨t, p, q.answers⟩
      ↔ (q.answers.map (fun a => a.1)).countP
          (fun l => startsWithS "correct".toList l) = 1 := by
  have hinit : questionInit q = .ok ⟨t, p, q.answers⟩ := by
    unfold questionInit getKey
    rw [h1, h2]
    rfl
  unfold MC_init
  rw [hinit]
  show (if countMC (pyReprStrList (q.answers.map (fun a => a.1))) ≠ 1 then
      (.error .onlyOneCorrect : Except Err HQ)
    else pure ⟨t, p, q.answers⟩) = .ok ⟨t, p, q.answers⟩ ↔ _
  rw [countMC_good _ h3]
  constructor
  · intro h
    by_cases hc : (q.answers.map (fun a => a.1)).countP
        (fun l => startsWithS "correct".toList l) = 1
    · exact hc
    · rw [if_pos hc] at h
      cases h
  · intro h
    rw [if_neg (fun hne => hne h)]
    rfl

/-- C6 witness: the amended theorem applied to one correct answer with a
partial-credit suffix and one incorrect answer — construction succeeds. -/
theorem C6_witness :
    MC_init ⟨some "MC".toList, some "p".toList,
        [("correct (50%)".toList, "a".toList), ("incorrect".toList, "b".toList)]⟩
      = .ok ⟨"MC".toList, "p".toList,
          [("correct (50%)".toList, "a".toList), ("incorrect".toList, "b".toList)]⟩ :=
  (C6_amended ⟨some "MC".toList, some "p".toList,
      [("correct (50%)".toList, "a".toList), ("incorrect".toList, "b".toList)]⟩
    "MC".toList "p".toList rfl rfl (by decide)).mpr (by decide)
